import Mathlib

/-!
# Checkpoint lifecycle store (`x/checkpointing/keeper/ckpt_state.go`)

A shallow embedding of `CheckpointsState` and its four operations
(`CreateRawCkptWithMeta`, `GetRawCkptWithMeta`, `GetRawCkptsWithMetaByStatus`,
`UpdateCkptStatus`) over an explicit ordered key-value store, followed by the
properties proved about them.

Conventions
* byte strings are lists of naturals (each byte below 256 when produced by the code);
* `uint64` values are naturals, with the bound `< 2 ^ 64` stated where it matters;
* the key-value store is an association list kept in ascending byte-lexicographic
  key order (`KVStore.WF`), so the reverse iterator is the reversed list;
* a stateful method returns the new state next to its result;
* the scan returns the sequence of records on which the visitor was invoked.
-/

namespace Babylon

/-! ## Byte strings and the ordered key-value store -/

abbrev Bytes := List Nat

/-- Byte-lexicographic strict order on byte strings (`bytes.Compare(a, b) < 0`),
the order in which the store iterates its keys. -/
def bytesLt : Bytes → Bytes → Bool
  | [], [] => false
  | [], _ :: _ => true
  | _ :: _, [] => false
  | a :: as, b :: bs => if a < b then true else if b < a then false else bytesLt as bs

/-- The function `sdk.Uint64ToBigEndian`: the 8-byte big-endian encoding of a `uint64`. -/
def Uint64ToBigEndian (i : Nat) : Bytes :=
  [i / 2 ^ 56 % 256, i / 2 ^ 48 % 256, i / 2 ^ 40 % 256, i / 2 ^ 32 % 256,
   i / 2 ^ 24 % 256, i / 2 ^ 16 % 256, i / 2 ^ 8 % 256, i % 256]

/-- The function `sdk.BigEndianToUint64` on a byte string: its big-endian value. -/
def BigEndianToUint64 (bz : Bytes) : Nat :=
  bz.foldl (fun acc b => acc * 256 + b) 0

/-- An `sdk.KVStore`: the entries in ascending key order. -/
abbrev KVStore := List (Bytes × Bytes)

/-- Representation invariant of the store: keys strictly ascending (hence unique). -/
def KVStore.WF (st : KVStore) : Prop :=
  st.Pairwise (fun x y => bytesLt x.1 y.1 = true)

/-- The method `KVStore.Get`: `none` stands for the `nil` result of an absent key. -/
def KVStore.Get : KVStore → Bytes → Option Bytes
  | [], _ => none
  | (k', v') :: rest, k => if k = k' then some v' else KVStore.Get rest k

/-- The method `KVStore.Set`: ordered insertion, replacing the value of an existing key. -/
def KVStore.Set : KVStore → Bytes → Bytes → KVStore
  | [], k, v => [(k, v)]
  | (k', v') :: rest, k, v =>
    if k = k' then (k, v) :: rest
    else if bytesLt k k' = true then (k, v) :: (k', v') :: rest
    else (k', v') :: KVStore.Set rest k v

/-- The store `prefix.NewStore(parent, pfx)`: the entries of `parent` whose key
starts with `pfx`, the key stripped of it. -/
def NewStore (parent : KVStore) (pfx : Bytes) : KVStore :=
  parent.filterMap (fun kv =>
    if pfx.isPrefixOf kv.1 = true then some (kv.1.drop pfx.length, kv.2) else none)

/-- The call `store.ReverseIterator(nil, nil)`: all entries, highest key first. -/
def KVStore.ReverseIterator (st : KVStore) : List (Bytes × Bytes) :=
  st.reverse

/-! ## Record model (`types` package) -/

/-- The enumeration `types.CheckpointStatus`: the initial and the confirmed stage,
and the intermediate stages the store treats alike. -/
inductive CheckpointStatus where
  | Uncheckpointed
  | Confirmed
  | Other (tag : Nat)
  deriving DecidableEq, Repr

/-- The message `types.RawCheckpoint`: the epoch number and the remaining payload fields. -/
structure RawCheckpoint where
  EpochNum : Nat
  Payload : Bytes
  deriving DecidableEq, Repr

/-- The message `types.RawCheckpointWithMeta`: a raw checkpoint with its status. -/
structure RawCheckpointWithMeta where
  Ckpt : RawCheckpoint
  Status : CheckpointStatus
  deriving DecidableEq, Repr

/-- The errors the store returns. -/
inductive Error where
  | ErrCkptDoesNotExist
  | ErrUnmarshal
  | ErrHashNotTheSame
  deriving DecidableEq, Repr

/-- The constants of the `types` package that the keeper uses and that are declared
outside the keeper file, taken as parameters: the key namespace of checkpoint objects
and the checkpoint digest `RawCheckpoint.Hash`. -/
structure Types where
  CkptsObjectPrefix : Bytes
  Hash : RawCheckpoint → Bytes

/-- The interface `codec.BinaryCodec` at `RawCheckpointWithMeta`, taken as a parameter. -/
structure BinaryCodec where
  MustMarshal : RawCheckpointWithMeta → Bytes
  Unmarshal : Bytes → Option RawCheckpointWithMeta

/-- Modelled from the spec: `types.CkptsObjectKey` is declared outside the keeper file.
The key of an epoch is the namespace `CkptsObjectPrefix` (the one the scan opens)
followed by the fixed-width big-endian epoch number. -/
def CkptsObjectKey (T : Types) (epoch : Nat) : Bytes :=
  T.CkptsObjectPrefix ++ Uint64ToBigEndian epoch

/-- Modelled from the spec: `types.NewCheckpointWithMeta` is declared outside the keeper
file. It pairs a raw checkpoint with a status. -/
def NewCheckpointWithMeta (ckpt : RawCheckpoint) (status : CheckpointStatus) :
    RawCheckpointWithMeta :=
  { Ckpt := ckpt, Status := status }

/-- Modelled from the spec: `types.CkptWithMetaToBytes` is declared outside the keeper
file. It serializes the record with the codec. -/
def CkptWithMetaToBytes (cdc : BinaryCodec) (ckptWithMeta : RawCheckpointWithMeta) : Bytes :=
  cdc.MustMarshal ckptWithMeta

/-- Modelled from the spec: `types.BytesToCkptWithMeta` is declared outside the keeper
file. It deserializes the record with the codec, failing with a decode error. -/
def BytesToCkptWithMeta (cdc : BinaryCodec) (bz : Bytes) : Except Error RawCheckpointWithMeta :=
  match cdc.Unmarshal bz with
  | some r => .ok r
  | none => .error Error.ErrUnmarshal

/-! ## The keeper's checkpoint state -/

/-- The struct `CheckpointsState`. -/
structure CheckpointsState where
  cdc : BinaryCodec
  checkpoints : KVStore

/-- The method `CheckpointsState.CreateRawCkptWithMeta`. -/
def CreateRawCkptWithMeta (T : Types) (cs : CheckpointsState) (ckpt : RawCheckpoint) :
    CheckpointsState :=
  let ckptWithMeta := NewCheckpointWithMeta ckpt CheckpointStatus.Uncheckpointed
  let checkpoints := KVStore.Set cs.checkpoints (CkptsObjectKey T ckpt.EpochNum)
    (CkptWithMetaToBytes cs.cdc ckptWithMeta)
  { cs with checkpoints := checkpoints }

/-- The method `CheckpointsState.GetRawCkptWithMeta`. -/
def GetRawCkptWithMeta (T : Types) (cs : CheckpointsState) (epoch : Nat) :
    Except Error RawCheckpointWithMeta :=
  let ckptsKey := CkptsObjectKey T epoch
  match KVStore.Get cs.checkpoints ckptsKey with
  | none => .error Error.ErrCkptDoesNotExist
  | some rawBytes => BytesToCkptWithMeta cs.cdc rawBytes

/-- The loop of `GetRawCkptsWithMetaByStatus` over the entries the iterator yields:
the records on which `f` is invoked, in order, and the returned error. -/
def scanLoop (cdc : BinaryCodec) (status : CheckpointStatus)
    (f : RawCheckpointWithMeta → Bool) :
    List (Bytes × Bytes) → List RawCheckpointWithMeta × Option Error
  | [] => ([], none)
  | (_, ckptBytes) :: rest =>
    match BytesToCkptWithMeta cdc ckptBytes with
    | .error err => ([], some err)
    | .ok ckptWithMeta =>
      if status ≠ CheckpointStatus.Confirmed ∧
          ckptWithMeta.Status = CheckpointStatus.Confirmed then ([], none)
      else if ckptWithMeta.Status ≠ status then scanLoop cdc status f rest
      else if f ckptWithMeta = true then ([ckptWithMeta], none)
      else
        let r := scanLoop cdc status f rest
        (ckptWithMeta :: r.1, r.2)

/-- The method `CheckpointsState.GetRawCkptsWithMetaByStatus`. -/
def GetRawCkptsWithMetaByStatus (T : Types) (cs : CheckpointsState)
    (status : CheckpointStatus) (f : RawCheckpointWithMeta → Bool) :
    List RawCheckpointWithMeta × Option Error :=
  let store := NewStore cs.checkpoints T.CkptsObjectPrefix
  let iter := KVStore.ReverseIterator store
  scanLoop cs.cdc status f iter

/-- The method `CheckpointsState.UpdateCkptStatus`: the state after the call and
the returned error. -/
def UpdateCkptStatus (T : Types) (cs : CheckpointsState) (ckpt : RawCheckpoint)
    (status : CheckpointStatus) : CheckpointsState × Option Error :=
  match GetRawCkptWithMeta T cs ckpt.EpochNum with
  | .error err => (cs, some err)
  | .ok ckptWithMeta =>
    if T.Hash ckptWithMeta.Ckpt ≠ T.Hash ckpt then (cs, some Error.ErrHashNotTheSame)
    else
      let ckptWithMeta := { ckptWithMeta with Status := status }
      let checkpoints := KVStore.Set cs.checkpoints (Uint64ToBigEndian ckpt.EpochNum)
        (CkptWithMetaToBytes cs.cdc ckptWithMeta)
      ({ cs with checkpoints := checkpoints }, none)

/-! ## Predicates on states used by the statements -/

/-- The codec returns every record it wrote. -/
def BinaryCodec.RoundTrip (cdc : BinaryCodec) : Prop :=
  ∀ r, cdc.Unmarshal (cdc.MustMarshal r) = some r

/-- The codec returns, for every record it wrote, a record with the same status
and the same payload digest. -/
def BinaryCodec.DigestRoundTrip (T : Types) (cdc : BinaryCodec) : Prop :=
  ∀ r, ∃ r', cdc.Unmarshal (cdc.MustMarshal r) = some r' ∧
    r'.Status = r.Status ∧ T.Hash r'.Ckpt = T.Hash r.Ckpt

/-- All stored values decode. -/
def AllDecode (cs : CheckpointsState) : Prop :=
  ∀ kv ∈ cs.checkpoints, ∃ r, cs.cdc.Unmarshal kv.2 = some r

/-- Persisted layout: every key of the checkpoint-object namespace is the key of a
`uint64` epoch. -/
def EpochKeyed (T : Types) (cs : CheckpointsState) : Prop :=
  ∀ kv ∈ cs.checkpoints, T.CkptsObjectPrefix.isPrefixOf kv.1 = true →
    ∃ e, e < 2 ^ 64 ∧ kv.1 = CkptsObjectKey T e

/-- Confirmation monotonicity: below a CONFIRMED epoch every stored epoch is CONFIRMED. -/
def ConfirmationMonotone (T : Types) (cs : CheckpointsState) : Prop :=
  ∀ E E' r r', E' < E → E < 2 ^ 64 →
    GetRawCkptWithMeta T cs E = .ok r → r.Status = CheckpointStatus.Confirmed →
    GetRawCkptWithMeta T cs E' = .ok r' → r'.Status = CheckpointStatus.Confirmed

/-- A sequence cut off right after its first element on which `f` holds. -/
def cutAfter {α : Type} (f : α → Bool) : List α → List α
  | [] => []
  | x :: xs => if f x = true then [x] else x :: cutAfter f xs

/-- The visitor that never signals stop. -/
def visitAll : RawCheckpointWithMeta → Bool := fun _ => false

/-- The naive full reverse scan: every record of the namespace, highest key first,
kept when its status is `status`. -/
def naiveScan (T : Types) (cs : CheckpointsState) (status : CheckpointStatus) :
    List RawCheckpointWithMeta :=
  ((KVStore.ReverseIterator (NewStore cs.checkpoints T.CkptsObjectPrefix)).filterMap
    (fun kv => cs.cdc.Unmarshal kv.2)).filter (fun r => decide (r.Status = status))

/-! ## A concrete instance, for evaluating the operations -/

/-- A namespace of two bytes and a digest over all fields of the checkpoint. -/
def exampleTypes : Types :=
  { CkptsObjectPrefix := [1, 0]
    Hash := fun c => Uint64ToBigEndian c.EpochNum ++ c.Payload }

def statusTag : CheckpointStatus → Nat
  | .Uncheckpointed => 0
  | .Confirmed => 1
  | .Other n => n + 2

def tagStatus : Nat → CheckpointStatus
  | 0 => .Uncheckpointed
  | 1 => .Confirmed
  | n + 2 => .Other n

/-- A codec writing the status tag, the epoch and the payload. -/
def exampleCodec : BinaryCodec :=
  { MustMarshal := fun r => statusTag r.Status :: r.Ckpt.EpochNum :: r.Ckpt.Payload
    Unmarshal := fun bz =>
      match bz with
      | t :: e :: p => some { Ckpt := { EpochNum := e, Payload := p }, Status := tagStatus t }
      | _ => none }

/-- The empty store. -/
def emptyState : CheckpointsState :=
  { cdc := exampleCodec, checkpoints := [] }

/-- The state holding `(epoch, status)` records with an empty payload, written
under the keys of `CkptsObjectKey`. -/
def stateOf (l : List (Nat × CheckpointStatus)) : CheckpointsState :=
  { cdc := exampleCodec
    checkpoints := l.foldl (fun st p =>
      KVStore.Set st (CkptsObjectKey exampleTypes p.1)
        (exampleCodec.MustMarshal { Ckpt := { EpochNum := p.1, Payload := [] }, Status := p.2 }))
      [] }

/-- Two checkpoints of epoch 1 with different payloads. -/
def ckptA : RawCheckpoint := { EpochNum := 1, Payload := [7] }

def ckptB : RawCheckpoint := { EpochNum := 1, Payload := [8] }

/-- The state of the example: a CONFIRMED epoch on top of an unfinished one. -/
def violatingState : CheckpointsState :=
  stateOf [(1, CheckpointStatus.Confirmed), (2, CheckpointStatus.Confirmed),
    (3, CheckpointStatus.Uncheckpointed), (4, CheckpointStatus.Confirmed)]

/-- A state that respects confirmation monotonicity. -/
def monotoneState : CheckpointsState :=
  stateOf [(1, CheckpointStatus.Confirmed), (2, CheckpointStatus.Confirmed),
    (3, CheckpointStatus.Uncheckpointed), (4, CheckpointStatus.Other 0)]

/-- The visitor that signals stop on the record of epoch `e`. -/
def stopAtEpoch (e : Nat) : RawCheckpointWithMeta → Bool :=
  fun r => decide (r.Ckpt.EpochNum = e)

/-! ## Sequences of mutating calls -/

/-- A mutating call of the store. -/
inductive Call where
  | Create (ckpt : RawCheckpoint)
  | Update (ckpt : RawCheckpoint) (status : CheckpointStatus)

/-- The state after one call (the error of a failing update is dropped). -/
def Call.run (T : Types) (cs : CheckpointsState) : Call → CheckpointsState
  | .Create ckpt => CreateRawCkptWithMeta T cs ckpt
  | .Update ckpt status => (UpdateCkptStatus T cs ckpt status).1

/-- The state after a sequence of calls, first call first. -/
def runCalls (T : Types) (cs : CheckpointsState) (calls : List Call) : CheckpointsState :=
  calls.foldl (Call.run T) cs

/-- An epoch whose big-endian encoding starts with the bytes of the example namespace. -/
def strayEpoch : Nat := 2 ^ 56 + 2 ^ 47

/-- A checkpoint of epoch 1 with an empty payload. -/
def ckptOne : RawCheckpoint := { EpochNum := 1, Payload := [] }

/-- A checkpoint of the epoch `strayEpoch`. -/
def ckptStray : RawCheckpoint := { EpochNum := strayEpoch, Payload := [] }

/-- The state reached from the empty store by `Create` of epoch 1, `Create` of
`strayEpoch` and a successful `UpdateCkptStatus` of `strayEpoch` to CONFIRMED. -/
def strayState : CheckpointsState :=
  runCalls exampleTypes emptyState
    [Call.Create ckptOne, Call.Create ckptStray,
      Call.Update ckptStray CheckpointStatus.Confirmed]

/-! ## The decode error in the scan -/

/-- The scan goes on past the entry `kv`: its value decodes, the CONFIRMED
short-circuit does not apply and the visitor, if invoked, does not signal stop. -/
def scanContinues (cdc : BinaryCodec) (status : CheckpointStatus)
    (f : RawCheckpointWithMeta → Bool) (kv : Bytes × Bytes) : Bool :=
  match cdc.Unmarshal kv.2 with
  | none => false
  | some r =>
    !(decide (status ≠ CheckpointStatus.Confirmed ∧ r.Status = CheckpointStatus.Confirmed)) &&
    !(decide (r.Status = status) && f r)

/-- A state whose middle entry (epoch 2) holds bytes that do not decode. -/
def corruptState : CheckpointsState :=
  { cdc := exampleCodec
    checkpoints :=
      KVStore.Set (stateOf [(1, CheckpointStatus.Uncheckpointed),
        (3, CheckpointStatus.Uncheckpointed)]).checkpoints (CkptsObjectKey exampleTypes 2) [] }

/-! ## A state on which a create moves the short-circuit -/

/-- A state whose highest epoch is CONFIRMED above an unfinished one. -/
def shortCircuitState : CheckpointsState :=
  stateOf [(1, CheckpointStatus.Uncheckpointed), (2, CheckpointStatus.Confirmed)]

/-- A state whose two epochs are CONFIRMED. -/
def confirmedState : CheckpointsState :=
  stateOf [(1, CheckpointStatus.Confirmed), (2, CheckpointStatus.Confirmed)]

/-- A checkpoint of epoch 2. -/
def ckptC : RawCheckpoint := { EpochNum := 2, Payload := [] }

/-! ## The serialized record -/

/-- Modelled from the spec: the codec of `RawCheckpointWithMeta` behind
`types.CkptWithMetaToBytes` and `types.BytesToCkptWithMeta` is declared outside the
keeper file. The serialized record is the status tag followed by the raw checkpoint
payload: the 8-byte big-endian epoch number and the payload bytes. -/
def specCodec : BinaryCodec :=
  { MustMarshal := fun r =>
      statusTag r.Status :: (Uint64ToBigEndian r.Ckpt.EpochNum ++ r.Ckpt.Payload)
    Unmarshal := fun bz =>
      match bz with
      | [] => none
      | t :: rest =>
        if rest.length < 8 then none
        else some { Ckpt := { EpochNum := BigEndianToUint64 (rest.take 8),
                              Payload := rest.drop 8 },
                    Status := tagStatus t } }

/-! ## The `epoch-chains-info` command (`x/zoneconcierge/client/cli/query.go`) -/

/-- The message `types.QueryEpochChainsInfoRequest`. -/
structure QueryEpochChainsInfoRequest where
  EpochNum : Nat
  ChainIds : List String
  deriving DecidableEq, Repr

/-- What the handler does with its argument list, up to the call of the query
client: a run-time panic of an index expression, the error it returns, or the
request it hands to `queryClient.EpochChainsInfo`. -/
inductive RunResult where
  | IndexOutOfRange
  | ScanError
  | Request (req : QueryEpochChainsInfoRequest)
  deriving DecidableEq, Repr

/-- The `RunE` handler of `CmdEpochChainsInfoInfo`, called by cobra with any argument
list (`Args: cobra.ArbitraryArgs`). `Sscanf arg` stands for
`fmt.Sscanf(arg, "%d", &epoch)` with `epoch` a `uint64`: the scanned number, or
`none` when it returns an error. -/
def CmdEpochChainsInfoInfo (Sscanf : String → Option Nat) (args : List String) : RunResult :=
  match args[0]? with
  | none => RunResult.IndexOutOfRange
  | some arg0 =>
    match Sscanf arg0 with
    | none => RunResult.ScanError
    | some epoch => RunResult.Request { EpochNum := epoch, ChainIds := args.drop 1 }

/-! ## The key-value store -/

theorem KVStore.get_set_same (st : KVStore) (k v : Bytes) :
    KVStore.Get (KVStore.Set st k v) k = some v := by
  induction st with
  | nil => simp [KVStore.Set, KVStore.Get]
  | cons hd tl ih =>
    obtain ⟨k', v'⟩ := hd
    by_cases h1 : k = k'
    · simp [KVStore.Set, KVStore.Get, h1]
    · by_cases h2 : bytesLt k k' = true
      · simp [KVStore.Set, KVStore.Get, h1, h2]
      · simp [KVStore.Set, KVStore.Get, h1, h2, ih]

theorem KVStore.get_set_ne (st : KVStore) (k v k2 : Bytes) (hne : k2 ≠ k) :
    KVStore.Get (KVStore.Set st k v) k2 = KVStore.Get st k2 := by
  induction st with
  | nil => simp [KVStore.Set, KVStore.Get, hne]
  | cons hd tl ih =>
    obtain ⟨k', v'⟩ := hd
    by_cases h1 : k = k'
    · subst h1
      simp [KVStore.Set, KVStore.Get, hne]
    · by_cases h2 : bytesLt k k' = true
      · simp [KVStore.Set, KVStore.Get, h1, h2, hne]
      · simp [KVStore.Set, KVStore.Get, h1, h2, ih]

/-! ## Keys -/

theorem Uint64ToBigEndian_length (i : Nat) : (Uint64ToBigEndian i).length = 8 := rfl

theorem BigEndianToUint64_Uint64ToBigEndian (i : Nat) (hi : i < 2 ^ 64) :
    BigEndianToUint64 (Uint64ToBigEndian i) = i := by
  simp only [BigEndianToUint64, Uint64ToBigEndian, List.foldl]
  omega

theorem Uint64ToBigEndian_injective (a b : Nat) (ha : a < 2 ^ 64) (hb : b < 2 ^ 64)
    (h : Uint64ToBigEndian a = Uint64ToBigEndian b) : a = b := by
  rw [← BigEndianToUint64_Uint64ToBigEndian a ha, ← BigEndianToUint64_Uint64ToBigEndian b hb, h]

theorem CkptsObjectKey_injective (T : Types) (a b : Nat) (ha : a < 2 ^ 64) (hb : b < 2 ^ 64)
    (h : CkptsObjectKey T a = CkptsObjectKey T b) : a = b :=
  Uint64ToBigEndian_injective a b ha hb (List.append_cancel_left h)

theorem CkptsObjectKey_ne_bigEndian (T : Types) (hp : T.CkptsObjectPrefix ≠ []) (a b : Nat) :
    CkptsObjectKey T a ≠ Uint64ToBigEndian b := by
  intro h
  have hl := congrArg List.length h
  simp only [CkptsObjectKey, List.length_append, Uint64ToBigEndian_length] at hl
  have : T.CkptsObjectPrefix.length = 0 := by omega
  exact hp (List.length_eq_zero.mp this)

/-! ## The byte order and the big-endian encoding -/

theorem bytesLt_irrefl (x : Bytes) : bytesLt x x = false := by
  induction x with
  | nil => rfl
  | cons a t ih => simp [bytesLt, ih]

theorem bytesLt_append_left (p x y : Bytes) : bytesLt (p ++ x) (p ++ y) = bytesLt x y := by
  induction p with
  | nil => rfl
  | cons a t ih => simp [bytesLt, ih]

theorem foldl_bigEndian (xs : Bytes) (acc : Nat) :
    xs.foldl (fun a b => a * 256 + b) acc = acc * 256 ^ xs.length + BigEndianToUint64 xs := by
  induction xs generalizing acc with
  | nil => simp [BigEndianToUint64]
  | cons a t ih =>
    simp only [BigEndianToUint64, List.foldl_cons, List.length_cons] at ih ⊢
    rw [ih (acc * 256 + a), ih (0 * 256 + a)]
    ring

theorem BigEndianToUint64_cons (a : Nat) (t : Bytes) :
    BigEndianToUint64 (a :: t) = a * 256 ^ t.length + BigEndianToUint64 t := by
  simp only [BigEndianToUint64, List.foldl_cons]
  rw [foldl_bigEndian]
  simp [BigEndianToUint64]

theorem BigEndianToUint64_lt (xs : Bytes) (h : ∀ b ∈ xs, b < 256) :
    BigEndianToUint64 xs < 256 ^ xs.length := by
  induction xs with
  | nil => simp [BigEndianToUint64]
  | cons a t ih =>
    rw [BigEndianToUint64_cons, List.length_cons, pow_succ]
    have h1 := ih (fun b hb => h b (List.mem_cons_of_mem _ hb))
    have h2 : a < 256 := h a (List.mem_cons_self _ _)
    nlinarith

theorem bytesLt_iff_value_lt (xs ys : Bytes) (hlen : xs.length = ys.length)
    (hx : ∀ b ∈ xs, b < 256) (hy : ∀ b ∈ ys, b < 256) :
    bytesLt xs ys = true ↔ BigEndianToUint64 xs < BigEndianToUint64 ys := by
  induction xs generalizing ys with
  | nil =>
    cases ys with
    | nil => simp [bytesLt]
    | cons b bs => simp at hlen
  | cons a t ih =>
    cases ys with
    | nil => simp at hlen
    | cons b bs =>
      simp only [List.length_cons, Nat.add_right_cancel_iff] at hlen
      have hx' : ∀ c ∈ t, c < 256 := fun c hc => hx c (List.mem_cons_of_mem _ hc)
      have hy' : ∀ c ∈ bs, c < 256 := fun c hc => hy c (List.mem_cons_of_mem _ hc)
      have h1 := BigEndianToUint64_lt t hx'
      have h2 := BigEndianToUint64_lt bs hy'
      rw [BigEndianToUint64_cons, BigEndianToUint64_cons, hlen]
      rw [hlen] at h1
      have hpos : 0 < 256 ^ bs.length := by positivity
      simp only [bytesLt]
      split_ifs with hab hba
      · simp only [true_iff]
        nlinarith
      · simp only [Bool.false_eq_true, false_iff, not_lt]
        nlinarith
      · have hab' : a = b := by omega
        subst hab'
        rw [ih bs hlen hx' hy']
        omega

theorem Uint64ToBigEndian_lt (i : Nat) : ∀ b ∈ Uint64ToBigEndian i, b < 256 := by
  intro b hb
  simp only [Uint64ToBigEndian, List.mem_cons, List.mem_singleton, List.not_mem_nil,
    or_false] at hb
  omega

theorem bytesLt_Uint64ToBigEndian (a b : Nat) (ha : a < 2 ^ 64) (hb : b < 2 ^ 64) :
    bytesLt (Uint64ToBigEndian a) (Uint64ToBigEndian b) = true ↔ a < b := by
  rw [bytesLt_iff_value_lt (Uint64ToBigEndian a) (Uint64ToBigEndian b) rfl
      (Uint64ToBigEndian_lt a) (Uint64ToBigEndian_lt b),
    BigEndianToUint64_Uint64ToBigEndian a ha, BigEndianToUint64_Uint64ToBigEndian b hb]

/-! ## Point lookup, create and update -/

theorem exampleCodec_roundTrip : exampleCodec.RoundTrip := by
  intro r
  obtain ⟨⟨e, p⟩, s⟩ := r
  cases s <;> rfl

theorem RoundTrip.digestRoundTrip (T : Types) (cdc : BinaryCodec) (h : cdc.RoundTrip) :
    BinaryCodec.DigestRoundTrip T cdc :=
  fun r => ⟨r, h r, rfl, rfl⟩

theorem GetRawCkptWithMeta_congr (T : Types) (cs cs' : CheckpointsState) (E : Nat)
    (hc : cs'.cdc = cs.cdc)
    (hk : KVStore.Get cs'.checkpoints (CkptsObjectKey T E) =
      KVStore.Get cs.checkpoints (CkptsObjectKey T E)) :
    GetRawCkptWithMeta T cs' E = GetRawCkptWithMeta T cs E := by
  simp only [GetRawCkptWithMeta, hc, hk]

theorem GetRawCkptWithMeta_of_absent (T : Types) (cs : CheckpointsState) (E : Nat)
    (habs : KVStore.Get cs.checkpoints (CkptsObjectKey T E) = none) :
    GetRawCkptWithMeta T cs E = .error Error.ErrCkptDoesNotExist := by
  simp only [GetRawCkptWithMeta, habs]

theorem UpdateCkptStatus_cdc (T : Types) (cs : CheckpointsState) (c : RawCheckpoint)
    (s : CheckpointStatus) : (UpdateCkptStatus T cs c s).1.cdc = cs.cdc := by
  unfold UpdateCkptStatus
  split
  · rfl
  · split <;> rfl

/-- With a non-empty namespace, the key written by `UpdateCkptStatus` is never a key
read by `GetRawCkptWithMeta`: every point lookup is the same before and after. -/
theorem GetRawCkptWithMeta_UpdateCkptStatus (T : Types) (cs : CheckpointsState)
    (c : RawCheckpoint) (s : CheckpointStatus) (E : Nat) (hp : T.CkptsObjectPrefix ≠ []) :
    GetRawCkptWithMeta T (UpdateCkptStatus T cs c s).1 E = GetRawCkptWithMeta T cs E := by
  apply GetRawCkptWithMeta_congr _ _ _ _ (UpdateCkptStatus_cdc T cs c s)
  unfold UpdateCkptStatus
  split
  · rfl
  · split
    · rfl
    · exact KVStore.get_set_ne _ _ _ _ (CkptsObjectKey_ne_bigEndian T hp _ _)

theorem UpdateCkptStatus_of_match (T : Types) (cs : CheckpointsState) (c : RawCheckpoint)
    (s : CheckpointStatus) (r : RawCheckpointWithMeta)
    (hget : GetRawCkptWithMeta T cs c.EpochNum = .ok r) (hh : T.Hash r.Ckpt = T.Hash c) :
    UpdateCkptStatus T cs c s =
      (CheckpointsState.mk cs.cdc (KVStore.Set cs.checkpoints (Uint64ToBigEndian c.EpochNum)
          (cs.cdc.MustMarshal { r with Status := s })), none) := by
  simp [UpdateCkptStatus, hget, hh, CkptWithMetaToBytes]

theorem UpdateCkptStatus_ok_inv (T : Types) (cs : CheckpointsState) (c : RawCheckpoint)
    (s : CheckpointStatus) (hok : (UpdateCkptStatus T cs c s).2 = none) :
    ∃ r, GetRawCkptWithMeta T cs c.EpochNum = .ok r ∧ T.Hash r.Ckpt = T.Hash c := by
  unfold UpdateCkptStatus at hok
  split at hok
  · simp at hok
  · rename_i r hr
    split at hok
    · simp at hok
    · rename_i hh
      exact ⟨r, hr, not_not.mp hh⟩

theorem CreateRawCkptWithMeta_get_ne (T : Types) (cs : CheckpointsState) (c : RawCheckpoint)
    (k : Bytes) (hk : k ≠ CkptsObjectKey T c.EpochNum) :
    KVStore.Get (CreateRawCkptWithMeta T cs c).checkpoints k = KVStore.Get cs.checkpoints k :=
  KVStore.get_set_ne _ _ _ _ hk

theorem foldl_Create_get_absent (T : Types) (ckpts : List RawCheckpoint) (k : Bytes)
    (hk : ∀ c ∈ ckpts, k ≠ CkptsObjectKey T c.EpochNum) (cs : CheckpointsState)
    (habs : KVStore.Get cs.checkpoints k = none) :
    KVStore.Get (ckpts.foldl (CreateRawCkptWithMeta T) cs).checkpoints k = none := by
  induction ckpts generalizing cs with
  | nil => exact habs
  | cons c tl ih =>
    simp only [List.foldl_cons]
    apply ih (fun c' hc' => hk c' (List.mem_cons_of_mem _ hc'))
    rw [CreateRawCkptWithMeta_get_ne T cs c k (hk c (List.mem_cons_self _ _))]
    exact habs

/-- C1 (the code departs from the claim): when the namespace of checkpoint keys is
not empty, a successful `UpdateCkptStatus(c, s)` writes the record under the bare
big-endian epoch, not under `CkptsObjectKey`, so it returns no error but a following
`GetRawCkptWithMeta(c.EpochNum)` returns the record it returned before, with the
old status instead of `s`. -/
theorem UpdateCkptStatus_status_not_persisted (T : Types) (cs : CheckpointsState)
    (c : RawCheckpoint) (s : CheckpointStatus) (r : RawCheckpointWithMeta)
    (hp : T.CkptsObjectPrefix ≠ [])
    (hget : GetRawCkptWithMeta T cs c.EpochNum = .ok r) (hh : T.Hash r.Ckpt = T.Hash c) :
    (UpdateCkptStatus T cs c s).2 = none ∧
      GetRawCkptWithMeta T (UpdateCkptStatus T cs c s).1 c.EpochNum = .ok r := by
  refine ⟨?_, ?_⟩
  · rw [UpdateCkptStatus_of_match T cs c s r hget hh]
  · rw [GetRawCkptWithMeta_UpdateCkptStatus T cs c s c.EpochNum hp, hget]

/-- C1 at a concrete input: after `Create(ckptA)` on the empty store,
`UpdateCkptStatus(ckptA, CONFIRMED)` returns no error and the following lookup of
epoch 1 still returns status UNCHECKPOINTED. -/
theorem UpdateCkptStatus_status_not_persisted_witness :
    (UpdateCkptStatus exampleTypes (CreateRawCkptWithMeta exampleTypes emptyState ckptA)
        ckptA CheckpointStatus.Confirmed).2 = none ∧
      GetRawCkptWithMeta exampleTypes
        (UpdateCkptStatus exampleTypes (CreateRawCkptWithMeta exampleTypes emptyState ckptA)
          ckptA CheckpointStatus.Confirmed).1 ckptA.EpochNum
        = .ok { Ckpt := ckptA, Status := CheckpointStatus.Uncheckpointed } :=
  UpdateCkptStatus_status_not_persisted exampleTypes
    (CreateRawCkptWithMeta exampleTypes emptyState ckptA) ckptA CheckpointStatus.Confirmed
    { Ckpt := ckptA, Status := CheckpointStatus.Uncheckpointed } (by decide) rfl rfl

/-- C2: when the record stored for `c.EpochNum` has a payload hash different from
`c.Hash()`, `UpdateCkptStatus(c, s)` returns the hash-mismatch error and the state it
leaves is the state it was given, so the lookup of that epoch returns the same record. -/
theorem UpdateCkptStatus_hash_mismatch (T : Types) (cs : CheckpointsState)
    (c : RawCheckpoint) (s : CheckpointStatus) (r : RawCheckpointWithMeta)
    (hget : GetRawCkptWithMeta T cs c.EpochNum = .ok r) (hh : T.Hash r.Ckpt ≠ T.Hash c) :
    UpdateCkptStatus T cs c s = (cs, some Error.ErrHashNotTheSame) ∧
      GetRawCkptWithMeta T (UpdateCkptStatus T cs c s).1 c.EpochNum = .ok r := by
  have h : UpdateCkptStatus T cs c s = (cs, some Error.ErrHashNotTheSame) := by
    simp [UpdateCkptStatus, hget, hh]
  exact ⟨h, by rw [h]; exact hget⟩

theorem UpdateCkptStatus_hash_mismatch_witness :
    UpdateCkptStatus exampleTypes (CreateRawCkptWithMeta exampleTypes emptyState ckptA)
        ckptB CheckpointStatus.Confirmed
      = (CreateRawCkptWithMeta exampleTypes emptyState ckptA, some Error.ErrHashNotTheSame) ∧
    GetRawCkptWithMeta exampleTypes
        (UpdateCkptStatus exampleTypes (CreateRawCkptWithMeta exampleTypes emptyState ckptA)
          ckptB CheckpointStatus.Confirmed).1 ckptB.EpochNum
      = .ok { Ckpt := ckptA, Status := CheckpointStatus.Uncheckpointed } :=
  UpdateCkptStatus_hash_mismatch exampleTypes
    (CreateRawCkptWithMeta exampleTypes emptyState ckptA) ckptB CheckpointStatus.Confirmed
    { Ckpt := ckptA, Status := CheckpointStatus.Uncheckpointed } rfl (by decide)

/-- C3: for every state (whatever it holds for the epoch) and every raw checkpoint
`c`, after `CreateRawCkptWithMeta(c)` the lookup of `c.EpochNum` succeeds with a
record of status UNCHECKPOINTED whose payload hash is `c.Hash()`, provided the codec
returns what it wrote up to status and digest. -/
theorem GetRawCkptWithMeta_CreateRawCkptWithMeta (T : Types) (cs : CheckpointsState)
    (c : RawCheckpoint) (hrt : BinaryCodec.DigestRoundTrip T cs.cdc) :
    ∃ r, GetRawCkptWithMeta T (CreateRawCkptWithMeta T cs c) c.EpochNum = .ok r ∧
      r.Status = CheckpointStatus.Uncheckpointed ∧ T.Hash r.Ckpt = T.Hash c := by
  obtain ⟨r', hr', hs, hh⟩ := hrt (NewCheckpointWithMeta c CheckpointStatus.Uncheckpointed)
  refine ⟨r', ?_, hs, hh⟩
  simp only [GetRawCkptWithMeta, CreateRawCkptWithMeta, KVStore.get_set_same,
    BytesToCkptWithMeta, CkptWithMetaToBytes, hr']

theorem GetRawCkptWithMeta_CreateRawCkptWithMeta_witness :
    ∃ r, GetRawCkptWithMeta exampleTypes
        (CreateRawCkptWithMeta exampleTypes (stateOf [(1, CheckpointStatus.Confirmed)]) ckptB)
        ckptB.EpochNum = .ok r ∧
      r.Status = CheckpointStatus.Uncheckpointed ∧
      exampleTypes.Hash r.Ckpt = exampleTypes.Hash ckptB :=
  GetRawCkptWithMeta_CreateRawCkptWithMeta exampleTypes
    (stateOf [(1, CheckpointStatus.Confirmed)]) ckptB
    (RoundTrip.digestRoundTrip _ _ exampleCodec_roundTrip)

/-- C8: when no value is stored under the key of epoch `E`, `GetRawCkptWithMeta(E)`
fails with `ErrCkptDoesNotExist`; so it does on the empty store, and on a store
built from the empty one by `CreateRawCkptWithMeta` calls none of which was for `E`. -/
theorem GetRawCkptWithMeta_not_found (T : Types) (cs : CheckpointsState) (E : Nat)
    (ckpts : List RawCheckpoint)
    (habs : KVStore.Get cs.checkpoints (CkptsObjectKey T E) = none)
    (hE : E < 2 ^ 64) (hck : ∀ c ∈ ckpts, c.EpochNum < 2 ^ 64 ∧ c.EpochNum ≠ E) :
    GetRawCkptWithMeta T cs E = .error Error.ErrCkptDoesNotExist ∧
      GetRawCkptWithMeta T { cdc := cs.cdc, checkpoints := [] } E
        = .error Error.ErrCkptDoesNotExist ∧
      GetRawCkptWithMeta T
          (ckpts.foldl (CreateRawCkptWithMeta T) { cdc := cs.cdc, checkpoints := [] }) E
        = .error Error.ErrCkptDoesNotExist := by
  refine ⟨GetRawCkptWithMeta_of_absent T cs E habs,
    GetRawCkptWithMeta_of_absent T _ E rfl, GetRawCkptWithMeta_of_absent T _ E ?_⟩
  refine foldl_Create_get_absent T ckpts _ ?_ _ rfl
  intro c hc h
  exact (hck c hc).2 (CkptsObjectKey_injective T E c.EpochNum hE (hck c hc).1 h).symm

theorem GetRawCkptWithMeta_not_found_witness :
    GetRawCkptWithMeta exampleTypes (stateOf [(1, CheckpointStatus.Confirmed)]) 2
        = .error Error.ErrCkptDoesNotExist ∧
      GetRawCkptWithMeta exampleTypes { cdc := exampleCodec, checkpoints := [] } 2
        = .error Error.ErrCkptDoesNotExist ∧
      GetRawCkptWithMeta exampleTypes
          ([ckptA, ckptB].foldl (CreateRawCkptWithMeta exampleTypes)
            { cdc := exampleCodec, checkpoints := [] }) 2
        = .error Error.ErrCkptDoesNotExist :=
  GetRawCkptWithMeta_not_found exampleTypes (stateOf [(1, CheckpointStatus.Confirmed)]) 2
    [ckptA, ckptB] rfl (by decide) (by decide)

/-- C9: when no value is stored under the key of `c.EpochNum`, `UpdateCkptStatus(c, s)`
fails with `ErrCkptDoesNotExist` and the state it leaves is the state it was given. -/
theorem UpdateCkptStatus_not_found (T : Types) (cs : CheckpointsState)
    (c : RawCheckpoint) (s : CheckpointStatus)
    (habs : KVStore.Get cs.checkpoints (CkptsObjectKey T c.EpochNum) = none) :
    UpdateCkptStatus T cs c s = (cs, some Error.ErrCkptDoesNotExist) := by
  simp [UpdateCkptStatus, GetRawCkptWithMeta_of_absent T cs c.EpochNum habs]

theorem UpdateCkptStatus_not_found_witness :
    UpdateCkptStatus exampleTypes (stateOf [(2, CheckpointStatus.Confirmed)]) ckptA
        CheckpointStatus.Confirmed
      = (stateOf [(2, CheckpointStatus.Confirmed)], some Error.ErrCkptDoesNotExist) :=
  UpdateCkptStatus_not_found exampleTypes (stateOf [(2, CheckpointStatus.Confirmed)]) ckptA
    CheckpointStatus.Confirmed rfl

/-- C10: when `UpdateCkptStatus(c, s)` succeeds, the lookup of `c.EpochNum` succeeds
before and after the call, and the record returned after has the same raw checkpoint
(payload) as the record returned before, for a codec that returns what it wrote. -/
theorem UpdateCkptStatus_payload_unchanged (T : Types) (cs : CheckpointsState)
    (c : RawCheckpoint) (s : CheckpointStatus) (hrt : cs.cdc.RoundTrip)
    (hok : (UpdateCkptStatus T cs c s).2 = none) :
    ∃ r r', GetRawCkptWithMeta T cs c.EpochNum = .ok r ∧
      GetRawCkptWithMeta T (UpdateCkptStatus T cs c s).1 c.EpochNum = .ok r' ∧
      r'.Ckpt = r.Ckpt := by
  obtain ⟨r, hget, hh⟩ := UpdateCkptStatus_ok_inv T cs c s hok
  by_cases hp : T.CkptsObjectPrefix = []
  · refine ⟨r, { r with Status := s }, hget, ?_, rfl⟩
    rw [UpdateCkptStatus_of_match T cs c s r hget hh]
    simp only [GetRawCkptWithMeta, CkptsObjectKey, hp, List.nil_append,
      KVStore.get_set_same, BytesToCkptWithMeta, hrt _]
  · exact ⟨r, r, hget, by rw [GetRawCkptWithMeta_UpdateCkptStatus T cs c s _ hp, hget], rfl⟩

theorem UpdateCkptStatus_payload_unchanged_witness :
    ∃ r r', GetRawCkptWithMeta exampleTypes
        (CreateRawCkptWithMeta exampleTypes emptyState ckptA) ckptA.EpochNum = .ok r ∧
      GetRawCkptWithMeta exampleTypes
        (UpdateCkptStatus exampleTypes (CreateRawCkptWithMeta exampleTypes emptyState ckptA)
          ckptA CheckpointStatus.Confirmed).1 ckptA.EpochNum = .ok r' ∧
      r'.Ckpt = r.Ckpt :=
  UpdateCkptStatus_payload_unchanged exampleTypes
    (CreateRawCkptWithMeta exampleTypes emptyState ckptA) ckptA CheckpointStatus.Confirmed
    exampleCodec_roundTrip rfl

/-! ## The status-filtered reverse scan -/

theorem KVStore.mem_of_get (st : KVStore) (k v : Bytes) (h : KVStore.Get st k = some v) :
    (k, v) ∈ st := by
  induction st with
  | nil => simp [KVStore.Get] at h
  | cons hd tl ih =>
    obtain ⟨k', v'⟩ := hd
    by_cases hk : k = k'
    · simp only [KVStore.Get, hk, if_true, Option.some.injEq] at h
      simp [hk, h]
    · simp only [KVStore.Get, hk, if_false] at h
      exact List.mem_cons_of_mem _ (ih h)

theorem KVStore.get_of_mem (st : KVStore) (k v : Bytes) (hwf : KVStore.WF st)
    (h : (k, v) ∈ st) : KVStore.Get st k = some v := by
  induction st with
  | nil => simp at h
  | cons hd tl ih =>
    obtain ⟨k', v'⟩ := hd
    have hp := List.pairwise_cons.mp hwf
    rcases List.mem_cons.mp h with heq | hmem
    · simp only [Prod.mk.injEq] at heq
      simp [KVStore.Get, heq.1, heq.2]
    · have hlt := hp.1 _ hmem
      have hne : k ≠ k' := by
        intro hk
        simp only [hk, bytesLt_irrefl] at hlt
        exact Bool.false_ne_true hlt
      simp only [KVStore.Get, hne, if_false]
      exact ih hp.2 hmem

theorem mem_NewStore (st : KVStore) (pfx : Bytes) (kv : Bytes × Bytes) :
    kv ∈ NewStore st pfx ↔
      ∃ kv' ∈ st, pfx.isPrefixOf kv'.1 = true ∧ (kv'.1.drop pfx.length, kv'.2) = kv := by
  simp only [NewStore, List.mem_filterMap]
  constructor
  · rintro ⟨kv', hmem, h⟩
    by_cases hp : pfx.isPrefixOf kv'.1 = true
    · simp only [hp, if_true, Option.some.injEq] at h
      exact ⟨kv', hmem, hp, h⟩
    · simp [hp] at h
  · rintro ⟨kv', hmem, hp, h⟩
    exact ⟨kv', hmem, by simp [hp, h]⟩

theorem eq_append_drop_of_isPrefixOf (pfx k : Bytes) (h : pfx.isPrefixOf k = true) :
    k = pfx ++ k.drop pfx.length := by
  obtain ⟨t, ht⟩ := List.isPrefixOf_iff_prefix.mp h
  subst ht
  simp

theorem NewStore_pairwise (st : KVStore) (pfx : Bytes) (hwf : KVStore.WF st) :
    KVStore.WF (NewStore st pfx) := by
  unfold NewStore KVStore.WF
  refine List.Pairwise.filterMap _ ?_ hwf
  intro a a' haa b hb b' hb'
  by_cases hp : pfx.isPrefixOf a.1 = true
  · by_cases hp' : pfx.isPrefixOf a'.1 = true
    · simp only [hp, hp', if_true, Option.mem_def, Option.some.injEq] at hb hb'
      subst hb hb'
      rw [eq_append_drop_of_isPrefixOf pfx a.1 hp, eq_append_drop_of_isPrefixOf pfx a'.1 hp',
        bytesLt_append_left] at haa
      exact haa
    · simp [hp'] at hb'
  · simp [hp] at hb

theorem scanLoop_visitAll (cdc : BinaryCodec) (s : CheckpointStatus)
    (it : List (Bytes × Bytes)) (hdec : ∀ kv ∈ it, ∃ r, cdc.Unmarshal kv.2 = some r) :
    scanLoop cdc s visitAll it =
      (((it.filterMap (fun kv => cdc.Unmarshal kv.2)).takeWhile
          (fun r => decide (s = CheckpointStatus.Confirmed ∨
            r.Status ≠ CheckpointStatus.Confirmed))).filter
          (fun r => decide (r.Status = s)), none) := by
  induction it with
  | nil => rfl
  | cons hd tl ih =>
    obtain ⟨k, v⟩ := hd
    obtain ⟨r, hr⟩ := hdec (k, v) (List.mem_cons_self _ _)
    have ih' := ih (fun kv hkv => hdec kv (List.mem_cons_of_mem _ hkv))
    simp only at hr
    simp only [scanLoop, BytesToCkptWithMeta, hr, List.filterMap_cons]
    by_cases h1 : s ≠ CheckpointStatus.Confirmed ∧ r.Status = CheckpointStatus.Confirmed
    · have h1' : ¬ (s = CheckpointStatus.Confirmed ∨ r.Status ≠ CheckpointStatus.Confirmed) := by
        tauto
      simp [h1, h1', List.takeWhile_cons]
    · have h1' : s = CheckpointStatus.Confirmed ∨ r.Status ≠ CheckpointStatus.Confirmed := by
        tauto
      by_cases h2 : r.Status = s
      · simp [h1, h1', h2, List.takeWhile_cons, List.filter_cons, visitAll, ih']
      · simp [h1, h1', h2, List.takeWhile_cons, List.filter_cons, ih']

theorem scanLoop_cutAfter (cdc : BinaryCodec) (s : CheckpointStatus)
    (f : RawCheckpointWithMeta → Bool)
    (it : List (Bytes × Bytes)) (hdec : ∀ kv ∈ it, ∃ r, cdc.Unmarshal kv.2 = some r) :
    scanLoop cdc s f it = (cutAfter f (scanLoop cdc s visitAll it).1, none) := by
  induction it with
  | nil => rfl
  | cons hd tl ih =>
    obtain ⟨k, v⟩ := hd
    obtain ⟨r, hr⟩ := hdec (k, v) (List.mem_cons_self _ _)
    have ih' := ih (fun kv hkv => hdec kv (List.mem_cons_of_mem _ hkv))
    simp only at hr
    simp only [scanLoop, BytesToCkptWithMeta, hr]
    by_cases h1 : s ≠ CheckpointStatus.Confirmed ∧ r.Status = CheckpointStatus.Confirmed
    · simp [h1, cutAfter]
    · by_cases h2 : r.Status = s
      · by_cases h3 : f r = true
        · simp [h1, h2, h3, visitAll, cutAfter]
        · simp [h1, h2, h3, visitAll, cutAfter, ih']
      · simp [h1, h2, ih']

theorem iterator_decodes (T : Types) (cs : CheckpointsState) (hdec : AllDecode cs) :
    ∀ kv ∈ KVStore.ReverseIterator (NewStore cs.checkpoints T.CkptsObjectPrefix),
      ∃ r, cs.cdc.Unmarshal kv.2 = some r := by
  intro kv hkv
  simp only [KVStore.ReverseIterator, List.mem_reverse] at hkv
  obtain ⟨kv', hmem, _, heq⟩ := (mem_NewStore _ _ _).mp hkv
  subst heq
  exact hdec kv' hmem

/-- C7: for every state whose stored values decode, every status and every visitor
`f`, `GetRawCkptsWithMetaByStatus` returns no error and invokes `f` on the sequence
visited with the never-stopping visitor, cut off right after the first record on
which `f` returns true. -/
theorem GetRawCkptsWithMetaByStatus_stop (T : Types) (cs : CheckpointsState)
    (s : CheckpointStatus) (f : RawCheckpointWithMeta → Bool) (hdec : AllDecode cs) :
    GetRawCkptsWithMetaByStatus T cs s f =
      (cutAfter f (GetRawCkptsWithMetaByStatus T cs s visitAll).1, none) :=
  scanLoop_cutAfter cs.cdc s f _ (iterator_decodes T cs hdec)

/-! ### The scanned records, by epoch -/

theorem mem_takeWhile_desc {α : Type} (p : Nat × α → Bool) (l : List (Nat × α))
    (hl : l.Pairwise (fun x y => y.1 < x.1)) (x : Nat × α) :
    x ∈ l.takeWhile p ↔ x ∈ l ∧ p x = true ∧ ∀ y ∈ l, x.1 < y.1 → p y = true := by
  induction l with
  | nil => simp
  | cons a t ih =>
    have hp := List.pairwise_cons.mp hl
    have ih' := ih hp.2
    by_cases hpa : p a = true
    · rw [List.takeWhile_cons_of_pos hpa, List.mem_cons, ih']
      constructor
      · rintro (rfl | ⟨hx, hpx, hall⟩)
        · refine ⟨List.mem_cons_self _ _, hpa, ?_⟩
          intro y hy hlt
          rcases List.mem_cons.mp hy with rfl | hy'
          · exact hpa
          · exact absurd (hp.1 y hy') (by omega)
        · refine ⟨List.mem_cons_of_mem _ hx, hpx, ?_⟩
          intro y hy hlt
          rcases List.mem_cons.mp hy with rfl | hy'
          · exact hpa
          · exact hall y hy' hlt
      · rintro ⟨hx, hpx, hall⟩
        rcases List.mem_cons.mp hx with rfl | hx'
        · exact Or.inl rfl
        · exact Or.inr ⟨hx', hpx, fun y hy hlt => hall y (List.mem_cons_of_mem _ hy) hlt⟩
    · rw [List.takeWhile_cons_of_neg hpa]
      constructor
      · intro h
        simp at h
      · rintro ⟨hx, hpx, hall⟩
        rcases List.mem_cons.mp hx with rfl | hx'
        · exact absurd hpx hpa
        · exact absurd (hall a (List.mem_cons_self _ _) (hp.1 x hx')) hpa

/-- Under the layout invariants, the iterator yields one record per stored epoch,
highest epoch first. -/
theorem exists_epoch_records (T : Types) (cs : CheckpointsState)
    (hwf : KVStore.WF cs.checkpoints) (hkeys : EpochKeyed T cs) (hdec : AllDecode cs) :
    ∃ ers : List (Nat × RawCheckpointWithMeta),
      ers.map Prod.snd =
        (KVStore.ReverseIterator (NewStore cs.checkpoints T.CkptsObjectPrefix)).filterMap
          (fun kv => cs.cdc.Unmarshal kv.2) ∧
      ers.Pairwise (fun x y => y.1 < x.1) ∧
      (∀ x ∈ ers, x.1 < 2 ^ 64) ∧
      (∀ E r, E < 2 ^ 64 → ((E, r) ∈ ers ↔ GetRawCkptWithMeta T cs E = .ok r)) := by
  have ha : ∀ kv ∈ KVStore.ReverseIterator (NewStore cs.checkpoints T.CkptsObjectPrefix),
      ∃ e r, e < 2 ^ 64 ∧ kv.1 = Uint64ToBigEndian e ∧ cs.cdc.Unmarshal kv.2 = some r ∧
        KVStore.Get cs.checkpoints (CkptsObjectKey T e) = some kv.2 := by
    intro kv hkv
    simp only [KVStore.ReverseIterator, List.mem_reverse] at hkv
    obtain ⟨kv', hmem, hpre, heq⟩ := (mem_NewStore _ _ _).mp hkv
    subst heq
    obtain ⟨e, he, hk⟩ := hkeys kv' hmem hpre
    obtain ⟨r, hr⟩ := hdec kv' hmem
    refine ⟨e, r, he, ?_, hr, ?_⟩
    · simp [hk, CkptsObjectKey]
    · rw [← hk]
      exact KVStore.get_of_mem _ _ _ hwf hmem
  have hb : (KVStore.ReverseIterator (NewStore cs.checkpoints T.CkptsObjectPrefix)).Pairwise
      (fun x y => bytesLt y.1 x.1 = true) :=
    List.pairwise_reverse.mpr (NewStore_pairwise _ _ hwf)
  have hc : ∀ E v, KVStore.Get cs.checkpoints (CkptsObjectKey T E) = some v →
      (Uint64ToBigEndian E, v) ∈
        KVStore.ReverseIterator (NewStore cs.checkpoints T.CkptsObjectPrefix) := by
    intro E v hget
    simp only [KVStore.ReverseIterator, List.mem_reverse]
    refine (mem_NewStore _ _ _).mpr ⟨_, KVStore.mem_of_get _ _ _ hget, ?_, ?_⟩
    · exact List.isPrefixOf_iff_prefix.mpr ⟨_, rfl⟩
    · simp [CkptsObjectKey]
  generalize KVStore.ReverseIterator (NewStore cs.checkpoints T.CkptsObjectPrefix) = it
    at ha hb hc
  refine ⟨it.filterMap (fun kv =>
    (cs.cdc.Unmarshal kv.2).map (fun r => (BigEndianToUint64 kv.1, r))), ?_, ?_, ?_, ?_⟩
  · rw [List.map_filterMap]
    congr 1
    funext kv
    cases cs.cdc.Unmarshal kv.2 <;> rfl
  · refine List.Pairwise.filterMap _ ?_
      (hb.imp_of_mem (S := fun x y => bytesLt y.1 x.1 = true ∧ x ∈ it ∧ y ∈ it)
        (fun hx hy h => ⟨h, hx, hy⟩))
    rintro a a' ⟨hlt, hm, hm'⟩ b hb1 b' hb2
    obtain ⟨e, r, he, hk, hr, -⟩ := ha a hm
    obtain ⟨e', r', he', hk', hr', -⟩ := ha a' hm'
    simp only [hr, hr', Option.map_some', Option.mem_def, Option.some.injEq] at hb1 hb2
    subst hb1 hb2
    simp only [hk, hk', BigEndianToUint64_Uint64ToBigEndian e he,
      BigEndianToUint64_Uint64ToBigEndian e' he']
    rw [hk, hk'] at hlt
    exact (bytesLt_Uint64ToBigEndian e' e he' he).mp hlt
  · intro x hx
    obtain ⟨kv, hm, hkv⟩ := List.mem_filterMap.mp hx
    obtain ⟨e, r, he, hk, hr, -⟩ := ha kv hm
    simp only [hr, Option.map_some', Option.some.injEq] at hkv
    subst hkv
    simp only [hk, BigEndianToUint64_Uint64ToBigEndian e he]
    exact he
  · intro E r hE
    constructor
    · intro hx
      obtain ⟨kv, hm, hkv⟩ := List.mem_filterMap.mp hx
      obtain ⟨e, r', he, hk, hr, hget⟩ := ha kv hm
      simp only [hr, Option.map_some', Option.some.injEq, Prod.mk.injEq, hk,
        BigEndianToUint64_Uint64ToBigEndian e he] at hkv
      obtain ⟨rfl, rfl⟩ := hkv
      simp only [GetRawCkptWithMeta, hget, BytesToCkptWithMeta, hr]
    · intro hget
      simp only [GetRawCkptWithMeta] at hget
      cases hkv : KVStore.Get cs.checkpoints (CkptsObjectKey T E) with
      | none => simp [hkv] at hget
      | some v =>
        simp only [hkv, BytesToCkptWithMeta] at hget
        cases hr : cs.cdc.Unmarshal v with
        | none => simp [hr] at hget
        | some r' =>
          simp only [hr, Except.ok.injEq] at hget
          subst hget
          refine List.mem_filterMap.mpr ⟨_, hc E v hkv, ?_⟩
          simp [hr, BigEndianToUint64_Uint64ToBigEndian E hE]

/-- The scan with the never-stopping visitor, by epoch: the visited records are the
records of a strictly descending list of epochs, which holds exactly the epochs of
status `s` above which (when `s` is not CONFIRMED) no epoch is CONFIRMED. -/
theorem scan_epochs (T : Types) (cs : CheckpointsState) (s : CheckpointStatus)
    (hwf : KVStore.WF cs.checkpoints) (hkeys : EpochKeyed T cs) (hdec : AllDecode cs) :
    (GetRawCkptsWithMetaByStatus T cs s visitAll).2 = none ∧
    ∃ es : List Nat,
      es.Pairwise (fun a b => b < a) ∧
      (∀ E, E ∈ es ↔ E < 2 ^ 64 ∧ (∃ r, GetRawCkptWithMeta T cs E = .ok r ∧ r.Status = s) ∧
        (s ≠ CheckpointStatus.Confirmed → ∀ E' r', E' < 2 ^ 64 →
          GetRawCkptWithMeta T cs E' = .ok r' → r'.Status = CheckpointStatus.Confirmed →
          E' < E)) ∧
      es.map (GetRawCkptWithMeta T cs) =
        (GetRawCkptsWithMetaByStatus T cs s visitAll).1.map Except.ok := by
  obtain ⟨ers, hmap, hpw, hbound, hget⟩ := exists_epoch_records T cs hwf hkeys hdec
  have hscan : GetRawCkptsWithMetaByStatus T cs s visitAll = _ :=
    scanLoop_visitAll cs.cdc s _ (iterator_decodes T cs hdec)
  rw [hscan, ← hmap, List.takeWhile_map, List.filter_map]
  refine ⟨rfl, List.map Prod.fst
    (List.filter ((fun r => decide (r.Status = s)) ∘ Prod.snd)
      (List.takeWhile ((fun r => decide (s = CheckpointStatus.Confirmed ∨
        r.Status ≠ CheckpointStatus.Confirmed)) ∘ Prod.snd) ers)), ?_, ?_, ?_⟩
  · exact List.Pairwise.map _ (fun _ _ h => h)
      (hpw.sublist ((List.filter_sublist _).trans (List.takeWhile_sublist _)))
  · intro E
    simp only [List.mem_map, List.mem_filter, mem_takeWhile_desc _ ers hpw, Function.comp,
      decide_eq_true_eq, Prod.exists, exists_and_right, exists_eq_right]
    constructor
    · rintro ⟨r, ⟨hmem, -, hall⟩, hs⟩
      have hE := hbound _ hmem
      refine ⟨hE, ⟨r, (hget E r hE).mp hmem, hs⟩, ?_⟩
      intro hsc E' r' hE' hget' hconf
      by_contra hlt
      have hne : E' ≠ E := by
        rintro rfl
        rw [(hget E' r hE).mp hmem] at hget'
        simp only [Except.ok.injEq] at hget'
        subst hget'
        exact hsc (hs ▸ hconf)
      have h := hall (E', r') ((hget E' r' hE').mpr hget') (by simp only; omega)
      simp only at h
      tauto
    · rintro ⟨hE, ⟨r, hr, hs⟩, hall⟩
      refine ⟨r, ⟨(hget E r hE).mpr hr, ?_, ?_⟩, hs⟩
      · by_cases hsc : s = CheckpointStatus.Confirmed
        · exact Or.inl hsc
        · exact Or.inr (fun h => hsc (hs ▸ h))
      · rintro ⟨E', r'⟩ hmem hlt
        by_cases hsc : s = CheckpointStatus.Confirmed
        · exact Or.inl hsc
        · refine Or.inr (fun hconf => ?_)
          have := hall hsc E' r' (hbound _ hmem) ((hget E' r' (hbound _ hmem)).mp hmem) hconf
          simp only at hlt
          omega
  · rw [List.map_map, List.map_map]
    apply List.map_congr_left
    rintro ⟨E, r⟩ hx
    have hmem : (E, r) ∈ ers :=
      ((List.filter_sublist _).trans (List.takeWhile_sublist _)).subset hx
    exact (hget E r (hbound _ hmem)).mp hmem

/-! ### The store keeps its keys ascending -/

theorem bytesLt_trans (x y z : Bytes) (h1 : bytesLt x y = true) (h2 : bytesLt y z = true) :
    bytesLt x z = true := by
  induction x generalizing y z with
  | nil =>
    cases y with
    | nil => simp [bytesLt] at h1
    | cons b bs =>
      cases z with
      | nil => simp [bytesLt] at h2
      | cons c cs => rfl
  | cons a as ih =>
    cases y with
    | nil => simp [bytesLt] at h1
    | cons b bs =>
      cases z with
      | nil => simp [bytesLt] at h2
      | cons c cs =>
        simp only [bytesLt] at h1 h2 ⊢
        split_ifs at h1 h2 ⊢ <;> first | rfl | omega | exact ih _ _ h1 h2

theorem bytesLt_total (x y : Bytes) (h1 : bytesLt x y ≠ true) (hne : x ≠ y) :
    bytesLt y x = true := by
  induction x generalizing y with
  | nil =>
    cases y with
    | nil => exact absurd rfl hne
    | cons b bs => simp [bytesLt] at h1
  | cons a as ih =>
    cases y with
    | nil => rfl
    | cons b bs =>
      simp only [bytesLt] at h1 ⊢
      by_cases hab : a < b
      · simp [hab] at h1
      · by_cases hba : b < a
        · simp [hba]
        · have hab' : a = b := by omega
          subst hab'
          simp only [hab, if_false] at h1 ⊢
          exact ih bs h1 (fun h => hne (by rw [h]))

theorem KVStore.mem_Set (st : KVStore) (k v : Bytes) (kv : Bytes × Bytes)
    (h : kv ∈ KVStore.Set st k v) : kv = (k, v) ∨ kv ∈ st := by
  induction st with
  | nil => simpa [KVStore.Set] using h
  | cons hd tl ih =>
    obtain ⟨k', v'⟩ := hd
    simp only [KVStore.Set] at h
    split_ifs at h with h1 h2
    · rcases List.mem_cons.mp h with h | h
      · exact Or.inl h
      · exact Or.inr (List.mem_cons_of_mem _ h)
    · rcases List.mem_cons.mp h with h | h
      · exact Or.inl h
      · exact Or.inr h
    · rcases List.mem_cons.mp h with h | h
      · exact Or.inr (h ▸ List.mem_cons_self _ _)
      · rcases ih h with h | h
        · exact Or.inl h
        · exact Or.inr (List.mem_cons_of_mem _ h)

theorem KVStore.Set_WF (st : KVStore) (k v : Bytes) (hwf : KVStore.WF st) :
    KVStore.WF (KVStore.Set st k v) := by
  induction st with
  | nil => simp [KVStore.Set, KVStore.WF]
  | cons hd tl ih =>
    obtain ⟨k', v'⟩ := hd
    have hp := List.pairwise_cons.mp hwf
    simp only [KVStore.Set]
    split_ifs with h1 h2
    · subst h1
      exact List.pairwise_cons.mpr ⟨hp.1, hp.2⟩
    · refine List.pairwise_cons.mpr ⟨?_, hwf⟩
      intro y hy
      rcases List.mem_cons.mp hy with rfl | hy'
      · exact h2
      · exact bytesLt_trans _ _ _ h2 (hp.1 y hy')
    · refine List.pairwise_cons.mpr ⟨?_, ih hp.2⟩
      intro y hy
      rcases KVStore.mem_Set _ _ _ _ hy with rfl | hy'
      · exact bytesLt_total k k' h2 h1
      · exact hp.1 y hy'

theorem foldl_Set_WF {α : Type} (step : α → Bytes × Bytes) (l : List α) (acc : KVStore)
    (hwf : KVStore.WF acc) :
    KVStore.WF (l.foldl (fun st p => KVStore.Set st (step p).1 (step p).2) acc) := by
  induction l generalizing acc with
  | nil => exact hwf
  | cons p t ih => exact ih _ (KVStore.Set_WF _ _ _ hwf)

theorem foldl_Set_mem {α : Type} (step : α → Bytes × Bytes) (l : List α) (acc : KVStore)
    (kv : Bytes × Bytes)
    (h : kv ∈ l.foldl (fun st p => KVStore.Set st (step p).1 (step p).2) acc) :
    kv ∈ acc ∨ ∃ p ∈ l, kv = step p := by
  induction l generalizing acc with
  | nil => exact Or.inl h
  | cons p t ih =>
    rcases ih _ h with h | ⟨p', hp', h⟩
    · rcases KVStore.mem_Set _ _ _ _ h with h | h
      · exact Or.inr ⟨p, List.mem_cons_self _ _, h⟩
      · exact Or.inl h
    · exact Or.inr ⟨p', List.mem_cons_of_mem _ hp', h⟩

/-! ### The example states -/

theorem stateOf_WF (l : List (Nat × CheckpointStatus)) : KVStore.WF (stateOf l).checkpoints :=
  foldl_Set_WF (fun (p : Nat × CheckpointStatus) => (CkptsObjectKey exampleTypes p.1,
    exampleCodec.MustMarshal { Ckpt := { EpochNum := p.1, Payload := [] }, Status := p.2 }))
    l [] List.Pairwise.nil

theorem stateOf_entries (l : List (Nat × CheckpointStatus)) :
    ∀ kv ∈ (stateOf l).checkpoints, ∃ p ∈ l, kv = (CkptsObjectKey exampleTypes p.1,
      exampleCodec.MustMarshal { Ckpt := { EpochNum := p.1, Payload := [] }, Status := p.2 }) := by
  intro kv hkv
  rcases foldl_Set_mem (fun (p : Nat × CheckpointStatus) => (CkptsObjectKey exampleTypes p.1,
    exampleCodec.MustMarshal { Ckpt := { EpochNum := p.1, Payload := [] }, Status := p.2 }))
    l [] kv hkv with h | h
  · simp at h
  · exact h

theorem stateOf_allDecode (l : List (Nat × CheckpointStatus)) : AllDecode (stateOf l) := by
  intro kv hkv
  obtain ⟨p, -, rfl⟩ := stateOf_entries l kv hkv
  exact ⟨_, exampleCodec_roundTrip _⟩

theorem stateOf_epochKeyed (l : List (Nat × CheckpointStatus)) (hl : ∀ p ∈ l, p.1 < 2 ^ 64) :
    EpochKeyed exampleTypes (stateOf l) := by
  intro kv hkv _
  obtain ⟨p, hp, rfl⟩ := stateOf_entries l kv hkv
  exact ⟨p.1, hl p hp, rfl⟩

theorem stateOf_get (l : List (Nat × CheckpointStatus)) (hl : ∀ p ∈ l, p.1 < 2 ^ 64)
    (E : Nat) (hE : E < 2 ^ 64) (r : RawCheckpointWithMeta)
    (h : GetRawCkptWithMeta exampleTypes (stateOf l) E = .ok r) : (E, r.Status) ∈ l := by
  simp only [GetRawCkptWithMeta] at h
  cases hkv : KVStore.Get (stateOf l).checkpoints (CkptsObjectKey exampleTypes E) with
  | none => simp [hkv] at h
  | some v =>
    obtain ⟨p, hp, heq⟩ := stateOf_entries l _ (KVStore.mem_of_get _ _ _ hkv)
    simp only [Prod.mk.injEq] at heq
    have hEp : E = p.1 := CkptsObjectKey_injective exampleTypes E p.1 hE (hl p hp) heq.1
    rw [hkv] at h
    have hdec : (stateOf l).cdc.Unmarshal v = some
        { Ckpt := { EpochNum := p.1, Payload := [] }, Status := p.2 } := by
      rw [heq.2]
      exact exampleCodec_roundTrip _
    simp only [BytesToCkptWithMeta, hdec, Except.ok.injEq] at h
    subst h
    subst hEp
    exact hp

theorem filter_takeWhile_of_pairwise {α : Type} (p q : α → Bool) (l : List α)
    (hself : ∀ x ∈ l, p x = false → q x = false)
    (hl : l.Pairwise (fun x y => p x = false → q y = false)) :
    (l.takeWhile p).filter q = l.filter q := by
  induction l with
  | nil => rfl
  | cons a t ih =>
    have hp := List.pairwise_cons.mp hl
    have ih' := ih (fun x hx => hself x (List.mem_cons_of_mem _ hx)) hp.2
    cases hpa : p a with
    | true =>
      rw [List.takeWhile_cons_of_pos hpa, List.filter_cons, List.filter_cons, ih']
    | false =>
      have hqa := hself a (List.mem_cons_self _ _) hpa
      have hnil : t.filter q = [] :=
        List.filter_eq_nil_iff.mpr (fun y hy => by simp [hp.1 y hy hpa])
      rw [List.takeWhile_cons_of_neg (by simp [hpa]), List.filter_cons, hqa, hnil]
      simp

theorem monotoneState_monotone : ConfirmationMonotone exampleTypes monotoneState := by
  intro E E' r r' hlt hE hget hconf hget'
  have h1 := stateOf_get _ (by decide) E hE r hget
  have h2 := stateOf_get _ (by decide) E' (by omega) r' hget'
  rw [hconf] at h1
  simp only [List.mem_cons, Prod.mk.injEq, List.mem_singleton, List.not_mem_nil, or_false,
    reduceCtorEq, and_false, and_true] at h1 h2
  rcases h2 with h | h | h | h
  · exact h.2
  · exact h.2
  · omega
  · omega

/-- The CONFIRMED scan under the persisted layout: for every state that respects the
layout (keys ascending, every
key of the namespace the key of a `uint64` epoch) and whose stored values decode,
`GetRawCkptsWithMetaByStatus(CONFIRMED, f)` with a visitor that never signals stop
returns no error, and the records on which it invokes `f` are the records of a
strictly descending list of epochs that holds exactly the epochs whose stored
status is CONFIRMED. -/
theorem GetRawCkptsWithMetaByStatus_confirmed (T : Types) (cs : CheckpointsState)
    (f : RawCheckpointWithMeta → Bool)
    (hwf : KVStore.WF cs.checkpoints) (hkeys : EpochKeyed T cs) (hdec : AllDecode cs)
    (hf : ∀ r, f r = false) :
    (GetRawCkptsWithMetaByStatus T cs CheckpointStatus.Confirmed f).2 = none ∧
    ∃ es : List Nat,
      es.Pairwise (fun a b => b < a) ∧
      (∀ E, E ∈ es ↔ E < 2 ^ 64 ∧
        ∃ r, GetRawCkptWithMeta T cs E = .ok r ∧ r.Status = CheckpointStatus.Confirmed) ∧
      es.map (GetRawCkptWithMeta T cs) =
        (GetRawCkptsWithMetaByStatus T cs CheckpointStatus.Confirmed f).1.map Except.ok := by
  have hfv : f = visitAll := funext hf
  subst hfv
  obtain ⟨herr, es, hpw, hmem, hmap⟩ :=
    scan_epochs T cs CheckpointStatus.Confirmed hwf hkeys hdec
  refine ⟨herr, es, hpw, ?_, hmap⟩
  intro E
  rw [hmem E]
  simp

theorem GetRawCkptsWithMetaByStatus_confirmed_witness :
    (GetRawCkptsWithMetaByStatus exampleTypes violatingState CheckpointStatus.Confirmed
        visitAll).1.map (fun r => r.Ckpt.EpochNum) = [4, 2, 1] ∧
    ((GetRawCkptsWithMetaByStatus exampleTypes violatingState CheckpointStatus.Confirmed
        visitAll).2 = none ∧
    ∃ es : List Nat,
      es.Pairwise (fun a b => b < a) ∧
      (∀ E, E ∈ es ↔ E < 2 ^ 64 ∧
        ∃ r, GetRawCkptWithMeta exampleTypes violatingState E = .ok r ∧
          r.Status = CheckpointStatus.Confirmed) ∧
      es.map (GetRawCkptWithMeta exampleTypes violatingState) =
        (GetRawCkptsWithMetaByStatus exampleTypes violatingState CheckpointStatus.Confirmed
          visitAll).1.map Except.ok) :=
  ⟨rfl, GetRawCkptsWithMetaByStatus_confirmed exampleTypes violatingState visitAll
    (stateOf_WF _) (stateOf_epochKeyed _ (by decide)) (stateOf_allDecode _) (fun _ => rfl)⟩

/-- The scan for another status under the persisted layout: for every state that
respects the layout and whose stored values
decode, every status `s` other than CONFIRMED and a visitor that never signals stop,
`GetRawCkptsWithMetaByStatus(s, f)` returns no error, and the records on which it
invokes `f` are the records of a strictly descending list of epochs that holds
exactly the epochs of status `s` that lie strictly above every CONFIRMED epoch. -/
theorem GetRawCkptsWithMetaByStatus_unconfirmed (T : Types) (cs : CheckpointsState)
    (s : CheckpointStatus) (f : RawCheckpointWithMeta → Bool)
    (hwf : KVStore.WF cs.checkpoints) (hkeys : EpochKeyed T cs) (hdec : AllDecode cs)
    (hs : s ≠ CheckpointStatus.Confirmed) (hf : ∀ r, f r = false) :
    (GetRawCkptsWithMetaByStatus T cs s f).2 = none ∧
    ∃ es : List Nat,
      es.Pairwise (fun a b => b < a) ∧
      (∀ E, E ∈ es ↔ E < 2 ^ 64 ∧
        (∃ r, GetRawCkptWithMeta T cs E = .ok r ∧ r.Status = s) ∧
        (∀ E' r', E' < 2 ^ 64 → GetRawCkptWithMeta T cs E' = .ok r' →
          r'.Status = CheckpointStatus.Confirmed → E' < E)) ∧
      es.map (GetRawCkptWithMeta T cs) =
        (GetRawCkptsWithMetaByStatus T cs s f).1.map Except.ok := by
  have hfv : f = visitAll := funext hf
  subst hfv
  obtain ⟨herr, es, hpw, hmem, hmap⟩ := scan_epochs T cs s hwf hkeys hdec
  refine ⟨herr, es, hpw, ?_, hmap⟩
  intro E
  rw [hmem E]
  simp [hs]

theorem GetRawCkptsWithMetaByStatus_unconfirmed_witness :
    GetRawCkptsWithMetaByStatus exampleTypes violatingState CheckpointStatus.Uncheckpointed
        visitAll = ([], none) ∧
    ((GetRawCkptsWithMetaByStatus exampleTypes violatingState CheckpointStatus.Uncheckpointed
        visitAll).2 = none ∧
    ∃ es : List Nat,
      es.Pairwise (fun a b => b < a) ∧
      (∀ E, E ∈ es ↔ E < 2 ^ 64 ∧
        (∃ r, GetRawCkptWithMeta exampleTypes violatingState E = .ok r ∧
          r.Status = CheckpointStatus.Uncheckpointed) ∧
        (∀ E' r', E' < 2 ^ 64 → GetRawCkptWithMeta exampleTypes violatingState E' = .ok r' →
          r'.Status = CheckpointStatus.Confirmed → E' < E)) ∧
      es.map (GetRawCkptWithMeta exampleTypes violatingState) =
        (GetRawCkptsWithMetaByStatus exampleTypes violatingState
          CheckpointStatus.Uncheckpointed visitAll).1.map Except.ok) :=
  ⟨rfl, GetRawCkptsWithMetaByStatus_unconfirmed exampleTypes violatingState
    CheckpointStatus.Uncheckpointed visitAll
    (stateOf_WF _) (stateOf_epochKeyed _ (by decide)) (stateOf_allDecode _) (by decide)
    (fun _ => rfl)⟩

/-- The scan against the naive scan under the persisted layout: under confirmation
monotonicity, for a state that respects the persisted
layout and whose stored values decode, every status `s` other than CONFIRMED and a
visitor that never signals stop, `GetRawCkptsWithMetaByStatus(s, f)` returns no error
and visits the same records, in the same order, as the naive full reverse scan that
filters on the status. -/
theorem GetRawCkptsWithMetaByStatus_eq_naiveScan (T : Types) (cs : CheckpointsState)
    (s : CheckpointStatus) (f : RawCheckpointWithMeta → Bool)
    (hwf : KVStore.WF cs.checkpoints) (hkeys : EpochKeyed T cs) (hdec : AllDecode cs)
    (hmono : ConfirmationMonotone T cs)
    (hs : s ≠ CheckpointStatus.Confirmed) (hf : ∀ r, f r = false) :
    GetRawCkptsWithMetaByStatus T cs s f = (naiveScan T cs s, none) := by
  have hfv : f = visitAll := funext hf
  subst hfv
  obtain ⟨ers, hmap, hpw, hbound, hget⟩ := exists_epoch_records T cs hwf hkeys hdec
  have hscan : GetRawCkptsWithMetaByStatus T cs s visitAll = _ :=
    scanLoop_visitAll cs.cdc s _ (iterator_decodes T cs hdec)
  rw [hscan]
  unfold naiveScan
  rw [← hmap, List.takeWhile_map, List.filter_map, List.filter_map]
  congr 2
  apply filter_takeWhile_of_pairwise
  · intro x _ hx
    simp only [Function.comp, decide_eq_false_iff_not, not_or, not_not] at hx ⊢
    intro h
    exact hs (h ▸ hx.2)
  · refine hpw.imp_of_mem ?_
    intro x y hx hy hlt hpx
    simp only [Function.comp, decide_eq_false_iff_not, not_or, not_not] at hpx ⊢
    intro h
    have hy' := hmono x.1 y.1 x.2 y.2 hlt (hbound x hx)
      ((hget x.1 x.2 (hbound x hx)).mp hx) hpx.2 ((hget y.1 y.2 (hbound y hy)).mp hy)
    exact hs (h ▸ hy')

theorem GetRawCkptsWithMetaByStatus_eq_naiveScan_witness :
    (naiveScan exampleTypes monotoneState CheckpointStatus.Uncheckpointed).map
        (fun r => r.Ckpt.EpochNum) = [3] ∧
    GetRawCkptsWithMetaByStatus exampleTypes monotoneState CheckpointStatus.Uncheckpointed
        visitAll
      = (naiveScan exampleTypes monotoneState CheckpointStatus.Uncheckpointed, none) :=
  ⟨rfl, GetRawCkptsWithMetaByStatus_eq_naiveScan exampleTypes monotoneState
    CheckpointStatus.Uncheckpointed visitAll
    (stateOf_WF _) (stateOf_epochKeyed _ (by decide)) (stateOf_allDecode _)
    monotoneState_monotone (by decide) (fun _ => rfl)⟩

theorem GetRawCkptsWithMetaByStatus_stop_witness :
    (GetRawCkptsWithMetaByStatus exampleTypes violatingState CheckpointStatus.Confirmed
        (stopAtEpoch 2)).1.map (fun r => r.Ckpt.EpochNum) = [4, 2] ∧
    GetRawCkptsWithMetaByStatus exampleTypes violatingState CheckpointStatus.Confirmed
        (stopAtEpoch 2)
      = (cutAfter (stopAtEpoch 2)
          (GetRawCkptsWithMetaByStatus exampleTypes violatingState CheckpointStatus.Confirmed
            visitAll).1, none) :=
  ⟨rfl, GetRawCkptsWithMetaByStatus_stop exampleTypes violatingState
    CheckpointStatus.Confirmed (stopAtEpoch 2) (stateOf_allDecode _)⟩

/-! ## One entry per epoch, and no deletion -/

theorem KVStore.get_set_ne_none (st : KVStore) (k v k2 : Bytes)
    (h : KVStore.Get st k2 ≠ none) : KVStore.Get (KVStore.Set st k v) k2 ≠ none := by
  by_cases hk : k2 = k
  · subst hk
    simp [KVStore.get_set_same]
  · rw [KVStore.get_set_ne st k v k2 hk]
    exact h

theorem GetRawCkptWithMeta_ne_notFound_iff (T : Types) (cs : CheckpointsState) (E : Nat) :
    GetRawCkptWithMeta T cs E ≠ .error Error.ErrCkptDoesNotExist ↔
      KVStore.Get cs.checkpoints (CkptsObjectKey T E) ≠ none := by
  cases hkv : KVStore.Get cs.checkpoints (CkptsObjectKey T E) with
  | none => simp [GetRawCkptWithMeta, hkv]
  | some v =>
    cases hr : cs.cdc.Unmarshal v <;> simp [GetRawCkptWithMeta, hkv, BytesToCkptWithMeta, hr]

theorem Call.run_get_ne_none (T : Types) (cs : CheckpointsState) (call : Call) (k : Bytes)
    (h : KVStore.Get cs.checkpoints k ≠ none) :
    KVStore.Get (Call.run T cs call).checkpoints k ≠ none := by
  cases call with
  | Create c => exact KVStore.get_set_ne_none _ _ _ _ h
  | Update c s =>
    simp only [Call.run, UpdateCkptStatus]
    split
    · exact h
    · split
      · exact h
      · exact KVStore.get_set_ne_none _ _ _ _ h

theorem runCalls_get_ne_none (T : Types) (calls : List Call) (cs : CheckpointsState)
    (k : Bytes) (h : KVStore.Get cs.checkpoints k ≠ none) :
    KVStore.Get (runCalls T cs calls).checkpoints k ≠ none := by
  induction calls generalizing cs with
  | nil => exact h
  | cons call tl ih => exact ih _ (Call.run_get_ne_none T cs call k h)

theorem GetRawCkptWithMeta_Create_same (T : Types) (cs : CheckpointsState) (c : RawCheckpoint)
    (hrt : cs.cdc.RoundTrip) :
    GetRawCkptWithMeta T (CreateRawCkptWithMeta T cs c) c.EpochNum =
      .ok { Ckpt := c, Status := CheckpointStatus.Uncheckpointed } := by
  simp only [GetRawCkptWithMeta, CreateRawCkptWithMeta, KVStore.get_set_same,
    BytesToCkptWithMeta, CkptWithMetaToBytes, NewCheckpointWithMeta, hrt _]

/-- C11 (the code departs from the claim): when the namespace of checkpoint keys is
not empty, the state reached from the empty store by `CreateRawCkptWithMeta(c)` and
then `UpdateCkptStatus(c, s)` holds two entries for the one epoch of `c`: the key
`CkptsObjectKey` written by Create and the different, bare big-endian key written
by Update both hold a record whose payload is `c`. -/
theorem runCalls_two_entries_for_one_epoch (T : Types) (cdc : BinaryCodec)
    (c : RawCheckpoint) (s : CheckpointStatus)
    (hp : T.CkptsObjectPrefix ≠ []) (hrt : cdc.RoundTrip) :
    CkptsObjectKey T c.EpochNum ≠ Uint64ToBigEndian c.EpochNum ∧
    (KVStore.Get (runCalls T { cdc := cdc, checkpoints := [] }
        [Call.Create c, Call.Update c s]).checkpoints (CkptsObjectKey T c.EpochNum)).bind
      cdc.Unmarshal = some { Ckpt := c, Status := CheckpointStatus.Uncheckpointed } ∧
    (KVStore.Get (runCalls T { cdc := cdc, checkpoints := [] }
        [Call.Create c, Call.Update c s]).checkpoints (Uint64ToBigEndian c.EpochNum)).bind
      cdc.Unmarshal = some { Ckpt := c, Status := s } := by
  have hne := CkptsObjectKey_ne_bigEndian T hp c.EpochNum c.EpochNum
  have hget := GetRawCkptWithMeta_Create_same T { cdc := cdc, checkpoints := [] } c hrt
  have hupd := UpdateCkptStatus_of_match T
    (CreateRawCkptWithMeta T { cdc := cdc, checkpoints := [] } c) c s _ hget rfl
  refine ⟨hne, ?_, ?_⟩
  · simp only [runCalls, List.foldl_cons, List.foldl_nil, Call.run, hupd]
    rw [KVStore.get_set_ne _ _ _ _ hne]
    simp [CreateRawCkptWithMeta, KVStore.get_set_same, CkptWithMetaToBytes,
      NewCheckpointWithMeta, hrt _]
  · simp only [runCalls, List.foldl_cons, List.foldl_nil, Call.run, hupd]
    rw [KVStore.get_set_same]
    simp [CreateRawCkptWithMeta, hrt _]

/-- C11 at a concrete input: after `Create(ckptA)` and `UpdateCkptStatus(ckptA,
CONFIRMED)` on the empty store, the keys `[1,0,0,0,0,0,0,0,0,1]` and
`[0,0,0,0,0,0,0,1]` both hold a record of epoch 1. -/
theorem runCalls_two_entries_for_one_epoch_witness :
    CkptsObjectKey exampleTypes ckptA.EpochNum ≠ Uint64ToBigEndian ckptA.EpochNum ∧
    (KVStore.Get (runCalls exampleTypes { cdc := exampleCodec, checkpoints := [] }
        [Call.Create ckptA, Call.Update ckptA CheckpointStatus.Confirmed]).checkpoints
        (CkptsObjectKey exampleTypes ckptA.EpochNum)).bind exampleCodec.Unmarshal
      = some { Ckpt := ckptA, Status := CheckpointStatus.Uncheckpointed } ∧
    (KVStore.Get (runCalls exampleTypes { cdc := exampleCodec, checkpoints := [] }
        [Call.Create ckptA, Call.Update ckptA CheckpointStatus.Confirmed]).checkpoints
        (Uint64ToBigEndian ckptA.EpochNum)).bind exampleCodec.Unmarshal
      = some { Ckpt := ckptA, Status := CheckpointStatus.Confirmed } :=
  runCalls_two_entries_for_one_epoch exampleTypes exampleCodec ckptA
    CheckpointStatus.Confirmed (by decide) exampleCodec_roundTrip

/-- C12: records are never deleted. If `GetRawCkptWithMeta(E)` does not fail with
`ErrCkptDoesNotExist`, then after any sequence of `CreateRawCkptWithMeta` and
`UpdateCkptStatus` calls (successful or failing, for any checkpoints and statuses)
it still does not fail with `ErrCkptDoesNotExist`. -/
theorem GetRawCkptWithMeta_never_deleted (T : Types) (cs : CheckpointsState) (E : Nat)
    (calls : List Call)
    (h : GetRawCkptWithMeta T cs E ≠ .error Error.ErrCkptDoesNotExist) :
    GetRawCkptWithMeta T (runCalls T cs calls) E ≠ .error Error.ErrCkptDoesNotExist :=
  (GetRawCkptWithMeta_ne_notFound_iff T _ E).mpr
    (runCalls_get_ne_none T calls cs _ ((GetRawCkptWithMeta_ne_notFound_iff T cs E).mp h))

theorem GetRawCkptWithMeta_never_deleted_witness :
    GetRawCkptWithMeta exampleTypes
        (runCalls exampleTypes (stateOf [(1, CheckpointStatus.Confirmed)])
          [Call.Create ckptB, Call.Update ckptA CheckpointStatus.Confirmed,
            Call.Update ckptB (CheckpointStatus.Other 0), Call.Create ckptA]) 1
      ≠ .error Error.ErrCkptDoesNotExist :=
  GetRawCkptWithMeta_never_deleted exampleTypes (stateOf [(1, CheckpointStatus.Confirmed)]) 1
    [Call.Create ckptB, Call.Update ckptA CheckpointStatus.Confirmed,
      Call.Update ckptB (CheckpointStatus.Other 0), Call.Create ckptA]
    (by rw [show GetRawCkptWithMeta exampleTypes (stateOf [(1, CheckpointStatus.Confirmed)]) 1
          = .ok { Ckpt := { EpochNum := 1, Payload := [] },
                  Status := CheckpointStatus.Confirmed } from rfl]
        simp)

/-! ## The storage key and the serialized record -/

theorem bytesLt_CkptsObjectKey (T : Types) (a b : Nat) (ha : a < 2 ^ 64) (hb : b < 2 ^ 64) :
    bytesLt (CkptsObjectKey T a) (CkptsObjectKey T b) = true ↔ a < b := by
  unfold CkptsObjectKey
  rw [bytesLt_append_left]
  exact bytesLt_Uint64ToBigEndian a b ha hb

theorem iterator_keys_descending (st : KVStore) (pfx : Bytes) (hwf : KVStore.WF st) :
    (KVStore.ReverseIterator (NewStore st pfx)).Pairwise
      (fun x y => bytesLt y.1 x.1 = true) :=
  List.pairwise_reverse.mpr (NewStore_pairwise st pfx hwf)

/-- C13: the storage key of an epoch, the namespace followed by the 8-byte
big-endian epoch number, is order-preserving and injective on `uint64` epochs:
`a < b` exactly when the key of `a` is byte-lexicographically smaller than the key
of `b`, and equal keys come from equal epochs; so in a store with ascending keys the
reverse iterator of the namespace yields the entries of higher epochs first. -/
theorem CkptsObjectKey_order_preserving (T : Types) (a b : Nat) (st : KVStore)
    (ha : a < 2 ^ 64) (hb : b < 2 ^ 64) (hwf : KVStore.WF st) :
    (a < b ↔ bytesLt (CkptsObjectKey T a) (CkptsObjectKey T b) = true) ∧
    (CkptsObjectKey T a = CkptsObjectKey T b ↔ a = b) ∧
    (KVStore.ReverseIterator (NewStore st T.CkptsObjectPrefix)).Pairwise
      (fun x y => ∀ ex ey, ex < 2 ^ 64 → ey < 2 ^ 64 →
        x.1 = Uint64ToBigEndian ex → y.1 = Uint64ToBigEndian ey → ey < ex) := by
  refine ⟨(bytesLt_CkptsObjectKey T a b ha hb).symm,
    ⟨CkptsObjectKey_injective T a b ha hb, fun h => by rw [h]⟩, ?_⟩
  refine (iterator_keys_descending st T.CkptsObjectPrefix hwf).imp ?_
  intro x y hlt ex ey hex hey hx hy
  rw [hx, hy] at hlt
  exact (bytesLt_Uint64ToBigEndian ey ex hey hex).mp hlt

theorem CkptsObjectKey_order_preserving_witness :
    (1 < 2 ↔ bytesLt (CkptsObjectKey exampleTypes 1) (CkptsObjectKey exampleTypes 2) = true) ∧
    (CkptsObjectKey exampleTypes 1 = CkptsObjectKey exampleTypes 2 ↔ 1 = 2) ∧
    (KVStore.ReverseIterator
        (NewStore violatingState.checkpoints exampleTypes.CkptsObjectPrefix)).Pairwise
      (fun x y => ∀ ex ey, ex < 2 ^ 64 → ey < 2 ^ 64 →
        x.1 = Uint64ToBigEndian ex → y.1 = Uint64ToBigEndian ey → ey < ex) :=
  CkptsObjectKey_order_preserving exampleTypes 1 2 violatingState.checkpoints
    (by decide) (by decide) (stateOf_WF _)

theorem tagStatus_statusTag (s : CheckpointStatus) : tagStatus (statusTag s) = s := by
  cases s <;> rfl

theorem specCodec_roundTrip (r : RawCheckpointWithMeta) (hr : r.Ckpt.EpochNum < 2 ^ 64) :
    specCodec.Unmarshal (specCodec.MustMarshal r) = some r := by
  obtain ⟨⟨e, p⟩, s⟩ := r
  simp only at hr
  have hlen : ¬ (Uint64ToBigEndian e ++ p).length < 8 := by
    simp [Uint64ToBigEndian_length]
  simp only [specCodec, hlen, if_false, tagStatus_statusTag,
    List.take_left' (Uint64ToBigEndian_length e), List.drop_left' (Uint64ToBigEndian_length e),
    BigEndianToUint64_Uint64ToBigEndian e hr]

/-- C14: for every checkpoint record `r` (with a `uint64` epoch number), decoding the
bytes produced by encoding `r` succeeds and yields a record with the status of `r`
and a payload whose hash is the hash of the payload of `r`. -/
theorem BytesToCkptWithMeta_CkptWithMetaToBytes (T : Types) (r : RawCheckpointWithMeta)
    (hr : r.Ckpt.EpochNum < 2 ^ 64) :
    ∃ r', BytesToCkptWithMeta specCodec (CkptWithMetaToBytes specCodec r) = .ok r' ∧
      r'.Status = r.Status ∧ T.Hash r'.Ckpt = T.Hash r.Ckpt := by
  refine ⟨r, ?_, rfl, rfl⟩
  simp only [BytesToCkptWithMeta, CkptWithMetaToBytes, specCodec_roundTrip r hr]

theorem BytesToCkptWithMeta_CkptWithMetaToBytes_witness :
    ∃ r', BytesToCkptWithMeta specCodec
        (CkptWithMetaToBytes specCodec { Ckpt := ckptA, Status := CheckpointStatus.Other 3 })
        = .ok r' ∧
      r'.Status = CheckpointStatus.Other 3 ∧
      exampleTypes.Hash r'.Ckpt = exampleTypes.Hash ckptA :=
  BytesToCkptWithMeta_CkptWithMetaToBytes exampleTypes
    { Ckpt := ckptA, Status := CheckpointStatus.Other 3 } (by decide)

/-! ## Decode errors -/

theorem scanContinues_inv (cdc : BinaryCodec) (s : CheckpointStatus)
    (f : RawCheckpointWithMeta → Bool) (kv : Bytes × Bytes)
    (h : scanContinues cdc s f kv = true) :
    ∃ r, cdc.Unmarshal kv.2 = some r ∧
      ¬ (s ≠ CheckpointStatus.Confirmed ∧ r.Status = CheckpointStatus.Confirmed) ∧
      ¬ (r.Status = s ∧ f r = true) := by
  unfold scanContinues at h
  cases hr : cdc.Unmarshal kv.2 with
  | none => simp [hr] at h
  | some r =>
    simp only [hr, Bool.and_eq_true, Bool.not_eq_true', decide_eq_false_iff_not,
      Bool.and_eq_false_imp, decide_eq_true_eq] at h
    exact ⟨r, rfl, h.1, fun hh => by simpa [hh.2] using h.2 hh.1⟩

theorem scanLoop_reaches_undecodable (cdc : BinaryCodec) (s : CheckpointStatus)
    (f : RawCheckpointWithMeta → Bool) (pre : List (Bytes × Bytes)) (kv : Bytes × Bytes)
    (post : List (Bytes × Bytes)) (hkv : cdc.Unmarshal kv.2 = none)
    (hpre : ∀ x ∈ pre, scanContinues cdc s f x = true) :
    scanLoop cdc s f (pre ++ kv :: post) =
      ((pre.filterMap (fun x => cdc.Unmarshal x.2)).filter (fun r => decide (r.Status = s)),
        some Error.ErrUnmarshal) := by
  induction pre with
  | nil =>
    obtain ⟨k, v⟩ := kv
    simp only at hkv
    simp [scanLoop, BytesToCkptWithMeta, hkv]
  | cons x tl ih =>
    obtain ⟨k, v⟩ := x
    obtain ⟨r, hr, h1, h2⟩ := scanContinues_inv cdc s f (k, v) (hpre _ (List.mem_cons_self _ _))
    have ih' := ih (fun y hy => hpre y (List.mem_cons_of_mem _ hy))
    simp only at hr
    simp only [List.cons_append, scanLoop, BytesToCkptWithMeta, hr, List.filterMap_cons]
    by_cases hs : r.Status = s
    · have hf : ¬ f r = true := fun hf => h2 ⟨hs, hf⟩
      simp [h1, hs, hf, ih', List.filter_cons]
    · simp [h1, hs, ih', List.filter_cons]

theorem scanLoop_error_inv (cdc : BinaryCodec) (s : CheckpointStatus)
    (f : RawCheckpointWithMeta → Bool) (it : List (Bytes × Bytes))
    (h : (scanLoop cdc s f it).2 ≠ none) :
    ∃ pre kv post, it = pre ++ kv :: post ∧ cdc.Unmarshal kv.2 = none ∧
      ∀ x ∈ pre, scanContinues cdc s f x = true := by
  induction it with
  | nil => simp [scanLoop] at h
  | cons hd tl ih =>
    obtain ⟨k, v⟩ := hd
    cases hr : cdc.Unmarshal v with
    | none => exact ⟨[], (k, v), tl, rfl, hr, by simp⟩
    | some r =>
      simp only [scanLoop, BytesToCkptWithMeta, hr] at h
      by_cases h1 : s ≠ CheckpointStatus.Confirmed ∧ r.Status = CheckpointStatus.Confirmed
      · simp [h1] at h
      · rw [if_neg h1] at h
        by_cases hs : r.Status = s
        · rw [if_neg (not_not.mpr hs)] at h
          by_cases hf : f r = true
          · rw [if_pos hf] at h
            simp at h
          · rw [if_neg hf] at h
            obtain ⟨pre, kv, post, hit, hkv, hpre⟩ := ih h
            refine ⟨(k, v) :: pre, kv, post, by rw [hit]; rfl, hkv, ?_⟩
            intro x hx
            rcases List.mem_cons.mp hx with rfl | hx'
            · simp only [scanContinues, hr]
              simp [h1, hf]
            · exact hpre x hx'
        · rw [if_pos hs] at h
          obtain ⟨pre, kv, post, hit, hkv, hpre⟩ := ih h
          refine ⟨(k, v) :: pre, kv, post, by rw [hit]; rfl, hkv, ?_⟩
          intro x hx
          rcases List.mem_cons.mp hx with rfl | hx'
          · simp only [scanContinues, hr]
            simp [h1, hs]
          · exact hpre x hx'

/-- C15: decode errors are surfaced. `GetRawCkptWithMeta(E)` returns the decode error
when the bytes stored for `E` do not decode. `GetRawCkptsWithMetaByStatus(s, f)`
returns an error exactly when, in iterator order (highest key first), an entry
whose value does not decode comes after entries past all of which the scan goes on
(no CONFIRMED short-circuit, no stop signalled by the visitor); then the error is
the decode error and `f` has been invoked on the records of status `s` above that
entry and on nothing else. -/
theorem decode_errors_surfaced (T : Types) (cs : CheckpointsState) (s : CheckpointStatus)
    (f : RawCheckpointWithMeta → Bool) (E : Nat) (v : Bytes) :
    (KVStore.Get cs.checkpoints (CkptsObjectKey T E) = some v → cs.cdc.Unmarshal v = none →
      GetRawCkptWithMeta T cs E = .error Error.ErrUnmarshal) ∧
    ((GetRawCkptsWithMetaByStatus T cs s f).2 ≠ none ↔
      ∃ pre kv post,
        KVStore.ReverseIterator (NewStore cs.checkpoints T.CkptsObjectPrefix)
          = pre ++ kv :: post ∧
        cs.cdc.Unmarshal kv.2 = none ∧ ∀ x ∈ pre, scanContinues cs.cdc s f x = true) ∧
    (∀ pre kv post,
      KVStore.ReverseIterator (NewStore cs.checkpoints T.CkptsObjectPrefix)
        = pre ++ kv :: post →
      cs.cdc.Unmarshal kv.2 = none → (∀ x ∈ pre, scanContinues cs.cdc s f x = true) →
      GetRawCkptsWithMetaByStatus T cs s f =
        ((pre.filterMap (fun x => cs.cdc.Unmarshal x.2)).filter
          (fun r => decide (r.Status = s)), some Error.ErrUnmarshal)) := by
  have hreach : ∀ pre kv post,
      KVStore.ReverseIterator (NewStore cs.checkpoints T.CkptsObjectPrefix)
        = pre ++ kv :: post →
      cs.cdc.Unmarshal kv.2 = none → (∀ x ∈ pre, scanContinues cs.cdc s f x = true) →
      GetRawCkptsWithMetaByStatus T cs s f =
        ((pre.filterMap (fun x => cs.cdc.Unmarshal x.2)).filter
          (fun r => decide (r.Status = s)), some Error.ErrUnmarshal) := by
    intro pre kv post hit hkv hpre
    unfold GetRawCkptsWithMetaByStatus
    simp only [hit]
    exact scanLoop_reaches_undecodable cs.cdc s f pre kv post hkv hpre
  refine ⟨?_, ⟨?_, ?_⟩, hreach⟩
  · intro hget hv
    simp only [GetRawCkptWithMeta, hget, BytesToCkptWithMeta, hv]
  · exact scanLoop_error_inv cs.cdc s f _
  · rintro ⟨pre, kv, post, hit, hkv, hpre⟩
    rw [hreach pre kv post hit hkv hpre]
    simp

/-- C15 at a concrete input: with undecodable bytes stored for epoch 2 between the
UNCHECKPOINTED epochs 1 and 3, the lookup of epoch 2 returns the decode error, and
the scan for UNCHECKPOINTED invokes the visitor on the record of epoch 3 only and
returns the decode error. -/
theorem decode_errors_surfaced_witness :
    GetRawCkptWithMeta exampleTypes corruptState 2 = .error Error.ErrUnmarshal ∧
    GetRawCkptsWithMetaByStatus exampleTypes corruptState CheckpointStatus.Uncheckpointed
        visitAll
      = ([{ Ckpt := { EpochNum := 3, Payload := [] },
            Status := CheckpointStatus.Uncheckpointed }], some Error.ErrUnmarshal) :=
  ⟨(decode_errors_surfaced exampleTypes corruptState CheckpointStatus.Uncheckpointed
      visitAll 2 []).1 rfl rfl,
    (decode_errors_surfaced exampleTypes corruptState CheckpointStatus.Uncheckpointed
      visitAll 2 []).2.2
      [(Uint64ToBigEndian 3, exampleCodec.MustMarshal
        { Ckpt := { EpochNum := 3, Payload := [] }, Status := CheckpointStatus.Uncheckpointed })]
      (Uint64ToBigEndian 2, [])
      [(Uint64ToBigEndian 1, exampleCodec.MustMarshal
        { Ckpt := { EpochNum := 1, Payload := [] }, Status := CheckpointStatus.Uncheckpointed })]
      rfl rfl (by decide)⟩

/-! ## Mutations are local to one epoch -/

theorem GetRawCkptWithMeta_Create_ne (T : Types) (cs : CheckpointsState) (c : RawCheckpoint)
    (E : Nat) (hE : E < 2 ^ 64) (he : c.EpochNum < 2 ^ 64) (hne : E ≠ c.EpochNum) :
    GetRawCkptWithMeta T (CreateRawCkptWithMeta T cs c) E = GetRawCkptWithMeta T cs E := by
  exact GetRawCkptWithMeta_congr T cs (CreateRawCkptWithMeta T cs c) E rfl
    (CreateRawCkptWithMeta_get_ne T cs c _
      (fun h => hne (CkptsObjectKey_injective T E c.EpochNum hE he h)))

theorem GetRawCkptWithMeta_Update_ne (T : Types) (cs : CheckpointsState) (c : RawCheckpoint)
    (s : CheckpointStatus) (E : Nat) (hE : E < 2 ^ 64) (he : c.EpochNum < 2 ^ 64)
    (hne : E ≠ c.EpochNum) :
    GetRawCkptWithMeta T (UpdateCkptStatus T cs c s).1 E = GetRawCkptWithMeta T cs E := by
  by_cases hp : T.CkptsObjectPrefix = []
  · apply GetRawCkptWithMeta_congr _ _ _ _ (UpdateCkptStatus_cdc T cs c s)
    unfold UpdateCkptStatus
    split
    · rfl
    · split
      · rfl
      · apply KVStore.get_set_ne
        simp only [CkptsObjectKey, hp, List.nil_append]
        exact fun h => hne (Uint64ToBigEndian_injective E c.EpochNum hE he h)
  · exact GetRawCkptWithMeta_UpdateCkptStatus T cs c s E hp

theorem UpdateCkptStatus_mem (T : Types) (cs : CheckpointsState) (c : RawCheckpoint)
    (s : CheckpointStatus) (kv : Bytes × Bytes)
    (h : kv ∈ (UpdateCkptStatus T cs c s).1.checkpoints) :
    kv ∈ cs.checkpoints ∨
      ∃ r, kv = (Uint64ToBigEndian c.EpochNum, cs.cdc.MustMarshal r) := by
  unfold UpdateCkptStatus at h
  split at h
  · exact Or.inl h
  · split at h
    · exact Or.inl h
    · rcases KVStore.mem_Set _ _ _ _ h with h | h
      · exact Or.inr ⟨_, h⟩
      · exact Or.inl h

theorem UpdateCkptStatus_WF (T : Types) (cs : CheckpointsState) (c : RawCheckpoint)
    (s : CheckpointStatus) (hwf : KVStore.WF cs.checkpoints) :
    KVStore.WF (UpdateCkptStatus T cs c s).1.checkpoints := by
  unfold UpdateCkptStatus
  split
  · exact hwf
  · split
    · exact hwf
    · exact KVStore.Set_WF _ _ _ hwf

theorem UpdateCkptStatus_allDecode (T : Types) (cs : CheckpointsState) (c : RawCheckpoint)
    (s : CheckpointStatus) (hdec : AllDecode cs) (hrt : BinaryCodec.DigestRoundTrip T cs.cdc) :
    AllDecode (UpdateCkptStatus T cs c s).1 := by
  intro kv hkv
  rw [UpdateCkptStatus_cdc]
  rcases UpdateCkptStatus_mem T cs c s kv hkv with h | ⟨r, rfl⟩
  · exact hdec kv h
  · obtain ⟨r', hr', -⟩ := hrt r
    exact ⟨r', hr'⟩

theorem UpdateCkptStatus_epochKeyed (T : Types) (cs : CheckpointsState) (c : RawCheckpoint)
    (s : CheckpointStatus) (hkeys : EpochKeyed T cs)
    (hout : T.CkptsObjectPrefix.isPrefixOf (Uint64ToBigEndian c.EpochNum) = false) :
    EpochKeyed T (UpdateCkptStatus T cs c s).1 := by
  intro kv hkv hpre
  rcases UpdateCkptStatus_mem T cs c s kv hkv with h | ⟨r, rfl⟩
  · exact hkeys kv h hpre
  · simp only [hout] at hpre
    exact absurd hpre Bool.false_ne_true

theorem CreateRawCkptWithMeta_allDecode (T : Types) (cs : CheckpointsState) (c : RawCheckpoint)
    (hdec : AllDecode cs) (hrt : BinaryCodec.DigestRoundTrip T cs.cdc) :
    AllDecode (CreateRawCkptWithMeta T cs c) := by
  intro kv hkv
  rcases KVStore.mem_Set _ _ _ _ hkv with rfl | h
  · obtain ⟨r', hr', -⟩ := hrt (NewCheckpointWithMeta c CheckpointStatus.Uncheckpointed)
    exact ⟨r', hr'⟩
  · exact hdec kv h

theorem CreateRawCkptWithMeta_epochKeyed (T : Types) (cs : CheckpointsState)
    (c : RawCheckpoint) (hkeys : EpochKeyed T cs) (he : c.EpochNum < 2 ^ 64) :
    EpochKeyed T (CreateRawCkptWithMeta T cs c) := by
  intro kv hkv hpre
  rcases KVStore.mem_Set _ _ _ _ hkv with rfl | h
  · exact ⟨c.EpochNum, he, rfl⟩
  · exact hkeys kv h hpre

theorem mem_scan_confirmed_iff (T : Types) (cs : CheckpointsState)
    (hwf : KVStore.WF cs.checkpoints) (hkeys : EpochKeyed T cs) (hdec : AllDecode cs)
    (r : RawCheckpointWithMeta) :
    r ∈ (GetRawCkptsWithMetaByStatus T cs CheckpointStatus.Confirmed visitAll).1 ↔
      ∃ E, E < 2 ^ 64 ∧ GetRawCkptWithMeta T cs E = .ok r ∧
        r.Status = CheckpointStatus.Confirmed := by
  obtain ⟨-, es, -, hmem, hmap⟩ := scan_epochs T cs CheckpointStatus.Confirmed hwf hkeys hdec
  have hinj : Function.Injective (Except.ok : RawCheckpointWithMeta → Except Error _) :=
    fun a b h => by injection h
  rw [← List.mem_map_of_injective hinj, ← hmap, List.mem_map]
  constructor
  · rintro ⟨E, hE, hget⟩
    obtain ⟨hb, ⟨r', hr', hs⟩, -⟩ := (hmem E).mp hE
    rw [hr'] at hget
    injection hget with hrr
    subst hrr
    exact ⟨E, hb, hr', hs⟩
  · rintro ⟨E, hb, hget, hs⟩
    exact ⟨E, (hmem E).mpr ⟨hb, ⟨r, hget, hs⟩, fun h => absurd rfl h⟩, hget⟩

/-- The CONFIRMED scan of two states that agree on every lookup but the one of
epoch `e` visits the same records, up to the records of epoch `e`. -/
theorem scan_confirmed_frame (T : Types) (cs cs' : CheckpointsState) (e : Nat)
    (hwf : KVStore.WF cs.checkpoints) (hkeys : EpochKeyed T cs) (hdec : AllDecode cs)
    (hwf' : KVStore.WF cs'.checkpoints) (hkeys' : EpochKeyed T cs') (hdec' : AllDecode cs')
    (hframe : ∀ E, E < 2 ^ 64 → E ≠ e →
      GetRawCkptWithMeta T cs' E = GetRawCkptWithMeta T cs E)
    (r : RawCheckpointWithMeta) :
    (r ∈ (GetRawCkptsWithMetaByStatus T cs' CheckpointStatus.Confirmed visitAll).1 ↔
      r ∈ (GetRawCkptsWithMetaByStatus T cs CheckpointStatus.Confirmed visitAll).1) ∨
    GetRawCkptWithMeta T cs e = .ok r ∨ GetRawCkptWithMeta T cs' e = .ok r := by
  by_cases h1 : GetRawCkptWithMeta T cs e = .ok r
  · exact Or.inr (Or.inl h1)
  by_cases h2 : GetRawCkptWithMeta T cs' e = .ok r
  · exact Or.inr (Or.inr h2)
  left
  rw [mem_scan_confirmed_iff T cs hwf hkeys hdec, mem_scan_confirmed_iff T cs' hwf' hkeys' hdec']
  constructor
  · rintro ⟨E, hb, hget, hs⟩
    have hne : E ≠ e := fun h => h2 (h ▸ hget)
    exact ⟨E, hb, (hframe E hb hne) ▸ hget, hs⟩
  · rintro ⟨E, hb, hget, hs⟩
    have hne : E ≠ e := fun h => h1 (h ▸ hget)
    exact ⟨E, hb, (hframe E hb hne).symm ▸ hget, hs⟩

/-- C16, as the code has it: for `uint64` epochs `E ≠ c.EpochNum`, the lookup of `E` is
the same before and after `CreateRawCkptWithMeta(c)` and before and after
`UpdateCkptStatus(c, s)`; and for the scan for CONFIRMED with a visitor that never
signals stop, on states that respect the persisted layout before and after the call
and whose values decode, a record is visited after the call exactly when it was
visited before, unless it is the record of epoch `c.EpochNum` before or after. -/
theorem mutations_local_to_epoch (T : Types) (cs : CheckpointsState) (c : RawCheckpoint)
    (s : CheckpointStatus) (E : Nat) (f : RawCheckpointWithMeta → Bool)
    (hE : E < 2 ^ 64) (he : c.EpochNum < 2 ^ 64) (hne : E ≠ c.EpochNum)
    (hwf : KVStore.WF cs.checkpoints) (hkeys : EpochKeyed T cs) (hdec : AllDecode cs)
    (hrt : BinaryCodec.DigestRoundTrip T cs.cdc)
    (hkeys' : EpochKeyed T (UpdateCkptStatus T cs c s).1) (hf : ∀ r, f r = false) :
    GetRawCkptWithMeta T (CreateRawCkptWithMeta T cs c) E = GetRawCkptWithMeta T cs E ∧
    GetRawCkptWithMeta T (UpdateCkptStatus T cs c s).1 E = GetRawCkptWithMeta T cs E ∧
    (∀ r,
      (r ∈ (GetRawCkptsWithMetaByStatus T (CreateRawCkptWithMeta T cs c)
              CheckpointStatus.Confirmed f).1 ↔
        r ∈ (GetRawCkptsWithMetaByStatus T cs CheckpointStatus.Confirmed f).1) ∨
      GetRawCkptWithMeta T cs c.EpochNum = .ok r ∨
      GetRawCkptWithMeta T (CreateRawCkptWithMeta T cs c) c.EpochNum = .ok r) ∧
    (∀ r,
      (r ∈ (GetRawCkptsWithMetaByStatus T (UpdateCkptStatus T cs c s).1
              CheckpointStatus.Confirmed f).1 ↔
        r ∈ (GetRawCkptsWithMetaByStatus T cs CheckpointStatus.Confirmed f).1) ∨
      GetRawCkptWithMeta T cs c.EpochNum = .ok r ∨
      GetRawCkptWithMeta T (UpdateCkptStatus T cs c s).1 c.EpochNum = .ok r) := by
  have hfv : f = visitAll := funext hf
  subst hfv
  refine ⟨GetRawCkptWithMeta_Create_ne T cs c E hE he hne,
    GetRawCkptWithMeta_Update_ne T cs c s E hE he hne, ?_, ?_⟩
  · intro r
    exact scan_confirmed_frame T cs (CreateRawCkptWithMeta T cs c) c.EpochNum hwf hkeys hdec
      (KVStore.Set_WF _ _ _ hwf) (CreateRawCkptWithMeta_epochKeyed T cs c hkeys he)
      (CreateRawCkptWithMeta_allDecode T cs c hdec hrt)
      (fun E' hE' hne' => GetRawCkptWithMeta_Create_ne T cs c E' hE' he hne') r
  · intro r
    exact scan_confirmed_frame T cs (UpdateCkptStatus T cs c s).1 c.EpochNum hwf hkeys hdec
      (UpdateCkptStatus_WF T cs c s hwf) hkeys'
      (UpdateCkptStatus_allDecode T cs c s hdec hrt)
      (fun E' hE' hne' => GetRawCkptWithMeta_Update_ne T cs c s E' hE' he hne') r

theorem mutations_local_to_epoch_witness :
    GetRawCkptWithMeta exampleTypes (CreateRawCkptWithMeta exampleTypes violatingState ckptC) 1
      = GetRawCkptWithMeta exampleTypes violatingState 1 ∧
    GetRawCkptWithMeta exampleTypes
        (UpdateCkptStatus exampleTypes violatingState ckptC (CheckpointStatus.Other 0)).1 1
      = GetRawCkptWithMeta exampleTypes violatingState 1 ∧
    (∀ r,
      (r ∈ (GetRawCkptsWithMetaByStatus exampleTypes
              (CreateRawCkptWithMeta exampleTypes violatingState ckptC)
              CheckpointStatus.Confirmed visitAll).1 ↔
        r ∈ (GetRawCkptsWithMetaByStatus exampleTypes violatingState
              CheckpointStatus.Confirmed visitAll).1) ∨
      GetRawCkptWithMeta exampleTypes violatingState ckptC.EpochNum = .ok r ∨
      GetRawCkptWithMeta exampleTypes
        (CreateRawCkptWithMeta exampleTypes violatingState ckptC) ckptC.EpochNum = .ok r) ∧
    (∀ r,
      (r ∈ (GetRawCkptsWithMetaByStatus exampleTypes
              (UpdateCkptStatus exampleTypes violatingState ckptC (CheckpointStatus.Other 0)).1
              CheckpointStatus.Confirmed visitAll).1 ↔
        r ∈ (GetRawCkptsWithMetaByStatus exampleTypes violatingState
              CheckpointStatus.Confirmed visitAll).1) ∨
      GetRawCkptWithMeta exampleTypes violatingState ckptC.EpochNum = .ok r ∨
      GetRawCkptWithMeta exampleTypes
        (UpdateCkptStatus exampleTypes violatingState ckptC (CheckpointStatus.Other 0)).1
        ckptC.EpochNum = .ok r) :=
  mutations_local_to_epoch exampleTypes violatingState ckptC (CheckpointStatus.Other 0) 1
    visitAll (by decide) (by decide) (by decide)
    (stateOf_WF _) (stateOf_epochKeyed _ (by decide)) (stateOf_allDecode _)
    (RoundTrip.digestRoundTrip _ _ exampleCodec_roundTrip)
    (UpdateCkptStatus_epochKeyed exampleTypes violatingState ckptC _
      (stateOf_epochKeyed _ (by decide)) rfl)
    (fun _ => rfl)

/-- C16, the claim as stated fails: on the state `{1: UNCHECKPOINTED, 2: CONFIRMED}` the
scan for UNCHECKPOINTED visits nothing; after `CreateRawCkptWithMeta` of a checkpoint
of epoch 2 it visits the records of epochs 2 and 1. The record of epoch 1 has entered
the visit although it is not the record of epoch 2, before or after the call.
Likewise on `{1: CONFIRMED, 2: CONFIRMED}` the scan for CONFIRMED with the visitor
that stops at epoch 2 visits the record of epoch 2 before the call and the record
of epoch 1 after it. -/
theorem scan_not_local_to_epoch :
    GetRawCkptsWithMetaByStatus exampleTypes confirmedState
        CheckpointStatus.Confirmed (stopAtEpoch 2)
      = ([{ Ckpt := { EpochNum := 2, Payload := [] }, Status := CheckpointStatus.Confirmed }],
         none) ∧
    GetRawCkptsWithMetaByStatus exampleTypes
        (CreateRawCkptWithMeta exampleTypes confirmedState ckptC)
        CheckpointStatus.Confirmed (stopAtEpoch 2)
      = ([{ Ckpt := { EpochNum := 1, Payload := [] }, Status := CheckpointStatus.Confirmed }],
         none) ∧
    GetRawCkptsWithMetaByStatus exampleTypes shortCircuitState
        CheckpointStatus.Uncheckpointed visitAll = ([], none) ∧
    GetRawCkptsWithMetaByStatus exampleTypes
        (CreateRawCkptWithMeta exampleTypes shortCircuitState ckptC)
        CheckpointStatus.Uncheckpointed visitAll
      = ([{ Ckpt := { EpochNum := 2, Payload := [] }, Status := CheckpointStatus.Uncheckpointed },
          { Ckpt := { EpochNum := 1, Payload := [] }, Status := CheckpointStatus.Uncheckpointed }],
         none) ∧
    ¬ (∀ r,
      (r ∈ (GetRawCkptsWithMetaByStatus exampleTypes
              (CreateRawCkptWithMeta exampleTypes shortCircuitState ckptC)
              CheckpointStatus.Uncheckpointed visitAll).1 ↔
        r ∈ (GetRawCkptsWithMetaByStatus exampleTypes shortCircuitState
              CheckpointStatus.Uncheckpointed visitAll).1) ∨
      GetRawCkptWithMeta exampleTypes shortCircuitState ckptC.EpochNum = .ok r ∨
      GetRawCkptWithMeta exampleTypes
        (CreateRawCkptWithMeta exampleTypes shortCircuitState ckptC) ckptC.EpochNum = .ok r) := by
  have hbefore : GetRawCkptsWithMetaByStatus exampleTypes shortCircuitState
      CheckpointStatus.Uncheckpointed visitAll = ([], none) := rfl
  have hafter : GetRawCkptsWithMetaByStatus exampleTypes
      (CreateRawCkptWithMeta exampleTypes shortCircuitState ckptC)
      CheckpointStatus.Uncheckpointed visitAll
      = ([{ Ckpt := { EpochNum := 2, Payload := [] }, Status := CheckpointStatus.Uncheckpointed },
          { Ckpt := { EpochNum := 1, Payload := [] }, Status := CheckpointStatus.Uncheckpointed }],
         none) := rfl
  have hget : GetRawCkptWithMeta exampleTypes shortCircuitState ckptC.EpochNum
      = .ok { Ckpt := { EpochNum := 2, Payload := [] },
              Status := CheckpointStatus.Confirmed } := rfl
  have hget' : GetRawCkptWithMeta exampleTypes
      (CreateRawCkptWithMeta exampleTypes shortCircuitState ckptC) ckptC.EpochNum
      = .ok { Ckpt := { EpochNum := 2, Payload := [] },
              Status := CheckpointStatus.Uncheckpointed } := rfl
  refine ⟨rfl, rfl, hbefore, hafter, ?_⟩
  intro h
  have h1 := h { Ckpt := { EpochNum := 1, Payload := [] },
                 Status := CheckpointStatus.Uncheckpointed }
  rw [hbefore, hafter, hget, hget'] at h1
  simp at h1

/-! ## The `epoch-chains-info` command -/

/-- C17 (the code departs from the claim): called with the empty argument list, which
cobra lets through, the handler evaluates `args[0]` and panics with an index out of
range instead of returning an error. On a non-empty list it returns the error of
`Sscanf` on the first argument, or else builds the request from the scanned number
and the remaining arguments in order. -/
theorem CmdEpochChainsInfoInfo_empty_args (Sscanf : String → Option Nat) :
    CmdEpochChainsInfoInfo Sscanf [] = RunResult.IndexOutOfRange ∧
    (∀ arg0 rest, Sscanf arg0 = none →
      CmdEpochChainsInfoInfo Sscanf (arg0 :: rest) = RunResult.ScanError) ∧
    (∀ arg0 rest epoch, Sscanf arg0 = some epoch →
      CmdEpochChainsInfoInfo Sscanf (arg0 :: rest)
        = RunResult.Request { EpochNum := epoch, ChainIds := rest }) := by
  refine ⟨rfl, ?_, ?_⟩
  · intro arg0 rest h
    simp [CmdEpochChainsInfoInfo, h]
  · intro arg0 rest epoch h
    simp [CmdEpochChainsInfoInfo, h]

/-! ## The scan on a state reached through `UpdateCkptStatus` -/

theorem Call.run_cdc (T : Types) (cs : CheckpointsState) (call : Call) :
    (Call.run T cs call).cdc = cs.cdc := by
  cases call with
  | Create c => rfl
  | Update c s => exact UpdateCkptStatus_cdc T cs c s

theorem runCalls_cdc (T : Types) (calls : List Call) (cs : CheckpointsState) :
    (runCalls T cs calls).cdc = cs.cdc := by
  induction calls generalizing cs with
  | nil => rfl
  | cons call tl ih =>
    simp only [runCalls, List.foldl_cons] at ih ⊢
    rw [ih, Call.run_cdc]

theorem runCalls_allDecode (T : Types) (calls : List Call) (cs : CheckpointsState)
    (hdec : AllDecode cs) (hrt : BinaryCodec.DigestRoundTrip T cs.cdc) :
    AllDecode (runCalls T cs calls) := by
  induction calls generalizing cs with
  | nil => exact hdec
  | cons call tl ih =>
    simp only [runCalls, List.foldl_cons] at ih ⊢
    apply ih
    · cases call with
      | Create c => exact CreateRawCkptWithMeta_allDecode T cs c hdec hrt
      | Update c s => exact UpdateCkptStatus_allDecode T cs c s hdec hrt
    · rw [Call.run_cdc]
      exact hrt

/-- With a non-empty namespace, every record a lookup returns in a state reached from
the empty store is UNCHECKPOINTED: no update is ever visible to a lookup. -/
theorem runCalls_lookup_uncheckpointed (T : Types) (cdc : BinaryCodec)
    (hp : T.CkptsObjectPrefix ≠ []) (hrt : cdc.RoundTrip) (calls : List Call)
    (cs : CheckpointsState) (hc : cs.cdc = cdc)
    (hinv : ∀ E r, GetRawCkptWithMeta T cs E = .ok r →
      r.Status = CheckpointStatus.Uncheckpointed)
    (E : Nat) (r : RawCheckpointWithMeta)
    (h : GetRawCkptWithMeta T (runCalls T cs calls) E = .ok r) :
    r.Status = CheckpointStatus.Uncheckpointed := by
  induction calls generalizing cs with
  | nil => exact hinv E r h
  | cons call tl ih =>
    simp only [runCalls, List.foldl_cons] at ih h
    refine ih (Call.run T cs call) ?_ ?_ h
    · rw [Call.run_cdc, hc]
    · intro E' r' h'
      cases call with
      | Create c =>
        simp only [Call.run] at h'
        by_cases hk : CkptsObjectKey T E' = CkptsObjectKey T c.EpochNum
        · simp only [GetRawCkptWithMeta, CreateRawCkptWithMeta, hk, KVStore.get_set_same,
            BytesToCkptWithMeta, CkptWithMetaToBytes, NewCheckpointWithMeta, hc, hrt _,
            Except.ok.injEq] at h'
          rw [← h']
        · rw [GetRawCkptWithMeta_congr T cs (CreateRawCkptWithMeta T cs c) E' rfl
            (CreateRawCkptWithMeta_get_ne T cs c _ hk)] at h'
          exact hinv E' r' h'
      | Update c s =>
        simp only [Call.run] at h'
        rw [GetRawCkptWithMeta_UpdateCkptStatus T cs c s E' hp] at h'
        exact hinv E' r' h'

theorem strayState_lookup_uncheckpointed (E : Nat) (r : RawCheckpointWithMeta)
    (h : GetRawCkptWithMeta exampleTypes strayState E = .ok r) :
    r.Status = CheckpointStatus.Uncheckpointed :=
  runCalls_lookup_uncheckpointed exampleTypes exampleCodec (by decide) exampleCodec_roundTrip
    _ emptyState rfl (fun E' r' h' => by simp [GetRawCkptWithMeta, emptyState, KVStore.Get] at h')
    E r h

theorem strayState_allDecode : AllDecode strayState :=
  runCalls_allDecode exampleTypes _ emptyState (fun kv hkv => by simp [emptyState] at hkv)
    (RoundTrip.digestRoundTrip _ _ exampleCodec_roundTrip)

theorem runCalls_WF (T : Types) (calls : List Call) (cs : CheckpointsState)
    (hwf : KVStore.WF cs.checkpoints) : KVStore.WF (runCalls T cs calls).checkpoints := by
  induction calls generalizing cs with
  | nil => exact hwf
  | cons call tl ih =>
    simp only [runCalls, List.foldl_cons] at ih ⊢
    apply ih
    cases call with
    | Create c => exact KVStore.Set_WF _ _ _ hwf
    | Update c s => exact UpdateCkptStatus_WF T cs c s hwf

theorem strayState_WF : KVStore.WF strayState.checkpoints :=
  runCalls_WF exampleTypes _ emptyState List.Pairwise.nil

/-- C4 (the code departs from the claim): on the state reached from the empty store
by `Create` of epoch 1, `Create` of epoch `2^56 + 2^47` and `UpdateCkptStatus` of that
epoch to CONFIRMED, all stored values decode and the keys are ascending, yet the scan
for CONFIRMED with the never-stopping visitor visits a record of epoch `2^56 + 2^47`
while the stored status of that epoch, as the lookup returns it, is UNCHECKPOINTED:
the visited records are not the records of the epochs whose stored status is
CONFIRMED. The update wrote its record under the bare big-endian epoch, which
starts with the namespace bytes and so lies inside the scanned namespace. -/
theorem scan_confirmed_visits_unconfirmed_epoch :
    KVStore.WF strayState.checkpoints ∧ AllDecode strayState ∧
    GetRawCkptsWithMetaByStatus exampleTypes strayState CheckpointStatus.Confirmed visitAll
      = ([{ Ckpt := ckptStray, Status := CheckpointStatus.Confirmed }], none) ∧
    GetRawCkptWithMeta exampleTypes strayState strayEpoch
      = .ok { Ckpt := ckptStray, Status := CheckpointStatus.Uncheckpointed } ∧
    ¬ ∃ es : List Nat,
      es.Pairwise (fun a b => b < a) ∧
      (∀ E, E ∈ es ↔ E < 2 ^ 64 ∧
        ∃ r, GetRawCkptWithMeta exampleTypes strayState E = .ok r ∧
          r.Status = CheckpointStatus.Confirmed) ∧
      es.map (GetRawCkptWithMeta exampleTypes strayState) =
        (GetRawCkptsWithMetaByStatus exampleTypes strayState CheckpointStatus.Confirmed
          visitAll).1.map Except.ok := by
  have hscan : GetRawCkptsWithMetaByStatus exampleTypes strayState
      CheckpointStatus.Confirmed visitAll
      = ([{ Ckpt := ckptStray, Status := CheckpointStatus.Confirmed }], none) := rfl
  refine ⟨strayState_WF, strayState_allDecode, hscan, rfl, ?_⟩
  rintro ⟨es, -, hmem, hmap⟩
  rw [hscan] at hmap
  cases es with
  | nil => simp at hmap
  | cons E0 tl =>
    obtain ⟨-, r, hr, hs⟩ := (hmem E0).mp (List.mem_cons_self _ _)
    have hu := strayState_lookup_uncheckpointed E0 r hr
    rw [hs] at hu
    exact absurd hu (by decide)

/-- C5 (the code departs from the claim): on the same reached state no lookup returns
a CONFIRMED record and the records of epochs 1 and `2^56 + 2^47` are UNCHECKPOINTED,
yet the scan for UNCHECKPOINTED with the never-stopping visitor visits nothing: it
stops at the CONFIRMED record that `UpdateCkptStatus` left under the bare
big-endian epoch inside the scanned namespace. -/
theorem scan_unconfirmed_cut_by_stray_entry :
    KVStore.WF strayState.checkpoints ∧ AllDecode strayState ∧
    (∀ E r, GetRawCkptWithMeta exampleTypes strayState E = .ok r →
      r.Status ≠ CheckpointStatus.Confirmed) ∧
    GetRawCkptWithMeta exampleTypes strayState 1
      = .ok { Ckpt := ckptOne, Status := CheckpointStatus.Uncheckpointed } ∧
    GetRawCkptsWithMetaByStatus exampleTypes strayState CheckpointStatus.Uncheckpointed
        visitAll = ([], none) ∧
    ¬ ∃ es : List Nat,
      es.Pairwise (fun a b => b < a) ∧
      (∀ E, E ∈ es ↔ E < 2 ^ 64 ∧
        (∃ r, GetRawCkptWithMeta exampleTypes strayState E = .ok r ∧
          r.Status = CheckpointStatus.Uncheckpointed) ∧
        (∀ E' r', E' < 2 ^ 64 → GetRawCkptWithMeta exampleTypes strayState E' = .ok r' →
          r'.Status = CheckpointStatus.Confirmed → E' < E)) ∧
      es.map (GetRawCkptWithMeta exampleTypes strayState) =
        (GetRawCkptsWithMetaByStatus exampleTypes strayState
          CheckpointStatus.Uncheckpointed visitAll).1.map Except.ok := by
  have hscan : GetRawCkptsWithMetaByStatus exampleTypes strayState
      CheckpointStatus.Uncheckpointed visitAll = ([], none) := rfl
  have hnone : ∀ E r, GetRawCkptWithMeta exampleTypes strayState E = .ok r →
      r.Status ≠ CheckpointStatus.Confirmed := by
    intro E r hr hs
    have hu := strayState_lookup_uncheckpointed E r hr
    rw [hs] at hu
    exact absurd hu (by decide)
  have hone : GetRawCkptWithMeta exampleTypes strayState 1
      = .ok { Ckpt := ckptOne, Status := CheckpointStatus.Uncheckpointed } := rfl
  refine ⟨strayState_WF, strayState_allDecode, hnone, hone, hscan, ?_⟩
  rintro ⟨es, -, hmem, hmap⟩
  rw [hscan] at hmap
  have hes : es = [] := by simpa using hmap
  have h1 : 1 ∈ es :=
    (hmem 1).mpr ⟨by decide, ⟨_, hone, rfl⟩, fun E' r' _ hr' hs' => absurd hs' (hnone E' r' hr')⟩
  rw [hes] at h1
  simp at h1

/-- C6 (the code departs from the claim): the same reached state has ascending keys,
decodable values and satisfies confirmation monotonicity (no lookup returns a
CONFIRMED record), yet the scan for UNCHECKPOINTED with the never-stopping visitor
visits nothing while the naive full reverse scan filtered on UNCHECKPOINTED yields
the records of epochs `2^56 + 2^47` and 1: the short-circuit stops at the CONFIRMED
record that `UpdateCkptStatus` left under the bare big-endian epoch. -/
theorem scan_ne_naiveScan_after_update :
    KVStore.WF strayState.checkpoints ∧ AllDecode strayState ∧
    ConfirmationMonotone exampleTypes strayState ∧
    GetRawCkptsWithMetaByStatus exampleTypes strayState CheckpointStatus.Uncheckpointed
        visitAll = ([], none) ∧
    naiveScan exampleTypes strayState CheckpointStatus.Uncheckpointed
      = [{ Ckpt := ckptStray, Status := CheckpointStatus.Uncheckpointed },
         { Ckpt := ckptOne, Status := CheckpointStatus.Uncheckpointed }] ∧
    GetRawCkptsWithMetaByStatus exampleTypes strayState CheckpointStatus.Uncheckpointed
        visitAll
      ≠ (naiveScan exampleTypes strayState CheckpointStatus.Uncheckpointed, none) := by
  have hscan : GetRawCkptsWithMetaByStatus exampleTypes strayState
      CheckpointStatus.Uncheckpointed visitAll = ([], none) := rfl
  have hnaive : naiveScan exampleTypes strayState CheckpointStatus.Uncheckpointed
      = [{ Ckpt := ckptStray, Status := CheckpointStatus.Uncheckpointed },
         { Ckpt := ckptOne, Status := CheckpointStatus.Uncheckpointed }] := rfl
  refine ⟨strayState_WF, strayState_allDecode, ?_, hscan, hnaive, ?_⟩
  · intro E E' r r' _ _ hget hconf _
    have hu := strayState_lookup_uncheckpointed E r hget
    rw [hconf] at hu
    exact absurd hu (by decide)
  · rw [hscan, hnaive]
    simp

end Babylon
